import Mathlib

/-!
# tinyclaw — verification of the dual-process lifecycle and fallback core

Shallow embedding of the TypeScript source of the tinyclaw repository:

* the single-flight invocation queue of the core processor module
  (`processWithClaude` / `processNext` / `flushChatQueue`,
  `src/src/core/auth.ts` lines 224-284);
* the daemon bridge and fallback invoker (`sendToCore`, `runFallback`,
  `fallbackClaude`, `runWithCliFallback`, `src/unnamed/part_003`,
  `src/src/daemon/fallback.ts`, `src/unnamed/part_002`);
* the supervisor lifecycle state machine and crash handling
  (`startCore` / `startHealthCheck` / `onExit`, `src/unnamed/part_006`);
* the autofix rate limiter (`attemptAutoFix`, `src/unnamed/part_007`);
* response truncation (`runClaude` / `processWithCodex`,
  `src/src/core/auth.ts` lines 346-348 and 415-417).

Machine integers are modelled as `Nat` (timestamps, counters) and `Int`
(process exit codes); JS strings are Lean `String`s; fallible async code is
modelled in `Except`, and the event-loop interleavings relevant to each
property are modelled as explicit transition systems.
-/

namespace Tinyclaw

/-! ## Invocation queue (core processor module, `src/src/core/auth.ts` 224-284)

The source keeps a module-level `processing : boolean` flag and a
`queue : Array<{message, chatId, source, resolve}>`.  `processWithClaude`
pushes a ticket and calls `processNext`; `processNext` returns at once when
`processing` is set or the queue is empty, otherwise picks the first
`"user"`-source ticket (falling back to index 0), splices it out, awaits the
CLI, resolves the ticket (also on a thrown error), clears `processing` and
recurses.  `flushChatQueue` walks the queue backwards, resolving and
splicing out every ticket of the given chat whose source is `"task"`.

The embedding makes the implicit in-flight invocation explicit as a list
`inFlight` (so that single-flight is a provable statement, not a typing
artifact) and records every call of a ticket's `resolve` in a log
`resolved` (so that exactly-once resolution is provable). -/

/-- `type QueueSource = "user" | "task"` (auth.ts:226). -/
inductive QueueSource
  | user
  | task
deriving DecidableEq, Repr

/-- A queue entry (auth.ts:228-233).  `id` numbers tickets in submission
order (the source identifies a ticket by its closure; the embedding needs a
name for it); `message` is irrelevant to the claims and omitted. -/
structure Ticket where
  id : Nat
  chatId : String
  source : QueueSource
deriving DecidableEq, Repr

/-- How a ticket's `resolve` got called: serviced by `processNext` (either
with the CLI result or with the catch-clause error string), or flushed by
`flushChatQueue`. -/
inductive ResKind
  | serviced
  | flushed
deriving DecidableEq, Repr

/-- One call of a ticket's `resolve` callback. -/
structure Resolution where
  ticketId : Nat
  source : QueueSource
  result : String
  kind : ResKind
deriving DecidableEq, Repr

/-- The module-level mutable state of the processor module, plus the
explicit in-flight list and resolution log. -/
structure QState where
  processing : Bool
  queue : List Ticket
  inFlight : List Ticket
  resolved : List Resolution
  nextId : Nat
deriving Repr

/-- Initial module state: `processing = false`, empty queue. -/
def initQState : QState :=
  { processing := false, queue := [], inFlight := [], resolved := [], nextId := 0 }

/-- auth.ts:268-269: `const userIdx = queue.findIndex(q => q.source === "user");
const idx = userIdx >= 0 ? userIdx : 0;` -/
def pickIdx (q : List Ticket) : Nat :=
  match q.findIdx? (fun t => t.source == QueueSource.user) with
  | some i => i
  | none => 0

/-- auth.ts:263-271, the synchronous head of `processNext`: return if
`processing` or the queue is empty; otherwise set `processing`, splice the
picked ticket out of the queue and start its CLI invocation (move it to
`inFlight`).  The `await`-and-resolve tail is the `Event.complete` step. -/
def processNext (s : QState) : QState :=
  if s.processing || s.queue.isEmpty then s
  else
    match s.queue[pickIdx s.queue]? with
    | none => s
    | some t =>
        { s with
          processing := true
          queue := s.queue.eraseIdx (pickIdx s.queue)
          inFlight := s.inFlight ++ [t] }

/-- auth.ts:253: the flush condition `queue[i].chatId === chatId &&
queue[i].source === "task"`. -/
def flushMatches (chatId : String) (t : Ticket) : Bool :=
  t.chatId == chatId && t.source == QueueSource.task

/-- auth.ts:250-261, `flushChatQueue`: iterate `i` from `queue.length - 1`
down to `0`; on a match, call `resolve("")` and splice the entry out.
Structurally: the loop handles the tail (higher indices) before the head,
so the head's resolution, when it matches, is appended last.  Returns the
surviving queue and the resolutions in the order the loop made them. -/
def flushChatQueue (q : List Ticket) (chatId : String) :
    List Ticket × List Resolution :=
  match q with
  | [] => ([], [])
  | t :: rest =>
      let (keep, res) := flushChatQueue rest chatId
      if flushMatches chatId t then
        (keep, res ++ [{ ticketId := t.id, source := t.source, result := "", kind := ResKind.flushed }])
      else
        (t :: keep, res)

/-- The externally triggered events of the processor module:
`submit` is a `processWithClaude` call (push + `processNext`, auth.ts:240-243),
`complete` is the in-flight CLI invocation settling — `resolve(result)` for
both the success and the catch path (auth.ts:273-283) — followed by
`processing = false; processNext()`, and `flush` is a `flushChatQueue`
call. -/
inductive QEvent
  | submit (chatId : String) (source : QueueSource)
  | complete (result : String)
  | flush (chatId : String)

/-- One event-loop step of the processor module. -/
def qstep (s : QState) : QEvent → QState
  | QEvent.submit chatId source =>
      processNext
        { s with
          queue := s.queue ++ [{ id := s.nextId, chatId := chatId, source := source }]
          nextId := s.nextId + 1 }
  | QEvent.complete result =>
      match s.inFlight with
      | [] => s
      | t :: rest =>
          processNext
            { s with
              processing := false
              inFlight := rest
              resolved := s.resolved ++ [{ ticketId := t.id, source := t.source, result := result, kind := ResKind.serviced }] }
  | QEvent.flush chatId =>
      let fr := flushChatQueue s.queue chatId
      { s with queue := fr.1, resolved := s.resolved ++ fr.2 }

/-- Run a sequence of events from the initial module state. -/
def qrun (es : List QEvent) : QState :=
  es.foldl qstep initQState

/-- The ids of the serviced resolutions (in log order) of one source class. -/
def servicedOf (s : QState) (c : QueueSource) : List Nat :=
  (s.resolved.filter (fun r => r.kind == ResKind.serviced && r.source == c)).map
    Resolution.ticketId

/-- The inductive invariant of the processor module state, except the
idle-queue clause (which is momentarily broken between a push and the
`processNext` call that follows it). `ids_perm` says every submitted ticket
is in exactly one place: still queued, in flight, or resolved. -/
structure QPre (s : QState) : Prop where
  flight_proc : s.inFlight.length = (if s.processing then 1 else 0)
  ids_perm :
    (s.queue.map Ticket.id ++ s.inFlight.map Ticket.id ++
        s.resolved.map Resolution.ticketId).Perm (List.range s.nextId)
  queue_sorted : List.Sorted (· < ·) (s.queue.map Ticket.id)
  flight_lt : ∀ t ∈ s.inFlight, ∀ u ∈ s.queue, u.source = t.source → t.id < u.id
  serviced_lt : ∀ r ∈ s.resolved, r.kind = ResKind.serviced →
      (∀ u ∈ s.queue, u.source = r.source → r.ticketId < u.id) ∧
      (∀ u ∈ s.inFlight, u.source = r.source → r.ticketId < u.id)
  serviced_sorted : ∀ c, List.Sorted (· < ·) (servicedOf s c)

/-- The full invariant: additionally, an idle processor has an empty queue
(every `processWithClaude` push is followed by a `processNext` call). -/
structure QInv (s : QState) extends QPre s : Prop where
  idle_empty : s.processing = false → s.queue = []

/-- Tickets not yet resolved: still queued or in flight. -/
def pendingCount (s : QState) : Nat := s.queue.length + s.inFlight.length

/-- Let the in-flight CLI invocation settle `n` times (each settlement
resolves its ticket and lets `processNext` start the next one). -/
def drainQ : Nat → QState → QState
  | 0, s => s
  | n + 1, s => drainQ n (qstep s (QEvent.complete ""))

/-- A concrete run exercising every event: a user and two task submissions
for chat "42", a task for chat "7", one completion, then a flush of "42". -/
def exEvents : List QEvent :=
  [QEvent.submit "42" QueueSource.user, QEvent.submit "42" QueueSource.task,
   QEvent.submit "7" QueueSource.task, QEvent.complete "ok",
   QEvent.flush "42"]

/-- A concrete idle queue holding a task ticket ahead of a user ticket. -/
def exPickState : QState :=
  { processing := false
    queue := [{ id := 0, chatId := "7", source := QueueSource.task },
              { id := 1, chatId := "42", source := QueueSource.user }]
    inFlight := []
    resolved := []
    nextId := 2 }

/-- A concrete busy queue: one task in flight for chat "42", a task and a
user ticket for "42" and a task for "7" still queued. -/
def exFlushState : QState :=
  { processing := true
    queue := [{ id := 1, chatId := "42", source := QueueSource.task },
              { id := 2, chatId := "42", source := QueueSource.user },
              { id := 3, chatId := "7", source := QueueSource.task }]
    inFlight := [{ id := 0, chatId := "42", source := QueueSource.task }]
    resolved := []
    nextId := 4 }

/-! ## Supervisor lifecycle (daemon/lifecycle module, `src/unnamed/part_006`)

`coreState : CoreState` is module-level mutable state.  `startCore`
(lines 118-203) sets it to `"starting"` — or leaves `"down"` when
`crashCount > 3` — and starts the polling health check; the health-check
tick (lines 86-107) returns immediately unless the state is still
`"starting"`, and flips it to `"up"` on a 200 response; the child's
`onExit` handler (lines 157-187) sets it to `"down"`, does the
crash-counter bookkeeping and decides between auto-fix and a delayed
restart. -/

/-- `type CoreState = "starting" | "up" | "down"` (lifecycle line 21). -/
inductive CoreState
  | starting
  | up
  | down
deriving DecidableEq, Repr

/-- The two events that can touch `coreState` within one spawn lifetime:
a successful health probe, and the child process exiting. -/
inductive LifeEvent
  | healthOk
  | exit
deriving DecidableEq, Repr

/-- The state change each event makes: the health-check callback first
checks `coreState !== "starting"` (returning early), else on `res.ok` sets
`coreState = "up"` (lines 89-101); `onExit` sets `coreState = "down"`
(line 160). -/
def lifeStep : CoreState → LifeEvent → CoreState
  | s, LifeEvent.healthOk => if s = CoreState.starting then CoreState.up else s
  | _, LifeEvent.exit => CoreState.down

/-- lifecycle lines 124-128: `startCore` sets `coreState = "starting"`,
except that past the crash-loop threshold (`crashCount > 3`) it stays
`"down"`. -/
def spawnState (crashCount : Nat) : CoreState :=
  if 3 < crashCount then CoreState.down else CoreState.starting

/-- The transitions the spec's P4 permits: stay put, `starting → up`,
`starting → down`, or `up → down`. -/
def allowedTransition (a b : CoreState) : Prop :=
  a = b ∨ (a = CoreState.starting ∧ b = CoreState.up) ∨
    (a = CoreState.starting ∧ b = CoreState.down) ∨
    (a = CoreState.up ∧ b = CoreState.down)

/-- The supervisor's crash bookkeeping (lifecycle lines 24-30), together
with the per-spawn `errorHandled` flag of the exiting child (line 135). -/
structure SupState where
  crashCount : Nat
  lastCrashAt : Nat
  autofixInProgress : Bool
  errorHandled : Bool
  shouldRun : Bool
deriving DecidableEq, Repr

/-- What the exit handler decides to do after its bookkeeping. -/
inductive ExitAction
  | autofix
  | restartAfter (ms : Nat)
  | nothing
deriving DecidableEq, Repr

/-- lifecycle lines 157-187, the crash-handling tail of the `onExit`
handler: a crash within 10 000 ms of the previous one increments
`crashCount`, otherwise the counter resets to 1; `lastCrashAt := now`;
then, if still running: on the 2nd-or-later rapid crash with no autofix in
progress and the error not yet handled for this spawn, mark it handled and
call `handleError` (which runs `attemptAutoFix`); otherwise (no autofix in
progress) schedule `startCore` again after 2 000 ms. -/
def onExit (st : SupState) (now : Nat) : SupState × ExitAction :=
  let newCount := if now - st.lastCrashAt < 10000 then st.crashCount + 1 else 1
  let st1 := { st with crashCount := newCount, lastCrashAt := now }
  if st1.shouldRun = false then (st1, ExitAction.nothing)
  else if 2 ≤ newCount ∧ st1.autofixInProgress = false ∧ st1.errorHandled = false then
    ({ st1 with errorHandled := true }, ExitAction.autofix)
  else if st1.autofixInProgress = false then (st1, ExitAction.restartAfter 2000)
  else (st1, ExitAction.nothing)

/-- A fresh supervisor state: no crash recorded, nothing in progress. -/
def exSupState : SupState :=
  { crashCount := 0, lastCrashAt := 0, autofixInProgress := false
    errorHandled := false, shouldRun := true }

/-! ## Auto-fix rate limiter (daemon/autofix module, `src/unnamed/part_007`)

`attemptAutoFix` keeps two module-level variables, `lastAttemptAt` and
`attemptCount` (lines 18-19), with `COOLDOWN_MS = 120_000` and
`MAX_ATTEMPTS = 3` (lines 21-22).  Its head (lines 35-49) is the rate
limiter; the rest delegates to `runWithCliFallback`.  The embedding models
that head; whether the gate let the call through to the CLI is returned as
a `FixAction`. -/

/-- The autofix module's rate-limiter state (autofix lines 18-19). -/
structure FixState where
  lastAttemptAt : Nat
  attemptCount : Nat
deriving DecidableEq, Repr

/-- Whether a call of `attemptAutoFix` got past the rate limiter (and so
invoked `runWithCliFallback`), and which attempt number it recorded. -/
inductive FixAction
  | refused
  | attempt (n : Nat)
deriving DecidableEq, Repr

/-- autofix lines 35-49: reset the counter when more than 120 000 ms passed
since the last recorded attempt (`now - lastAttemptAt > COOLDOWN_MS`);
return `false` without touching any CLI when the counter has reached 3
(`attemptCount >= MAX_ATTEMPTS`); otherwise increment the counter, record
`lastAttemptAt = now` and proceed to the CLI. -/
def attemptAutoFixGate (st : FixState) (now : Nat) : FixState × FixAction :=
  let count0 := if 120000 < now - st.lastAttemptAt then 0 else st.attemptCount
  if 3 ≤ count0 then
    ({ st with attemptCount := count0 }, FixAction.refused)
  else
    ({ lastAttemptAt := now, attemptCount := count0 + 1 },
      FixAction.attempt (count0 + 1))

/-- A rate-limiter state that has exhausted its three attempts. -/
def exFixState : FixState := { lastAttemptAt := 1000000, attemptCount := 3 }

/-! ## JS string helpers shared by the embedded modules

JS strings are modelled as Lean `String`s (lengths count characters; the
sources only manipulate them at character granularity).  `\s` is modelled
over the ASCII whitespace the sources deal in. -/

/-- The JS `\s` class (ASCII part): space, tab, newline, carriage return,
vertical tab, form feed. -/
def isJsWhitespace (ch : Char) : Bool :=
  ch == ' ' || ch == '\t' || ch == '\n' || ch == '\r' ||
    ch == Char.ofNat 11 || ch == Char.ofNat 12

/-- JS `String.prototype.trim`. -/
def jsTrim (s : String) : String :=
  String.mk (((s.toList.dropWhile isJsWhitespace).reverse.dropWhile
    isJsWhitespace).reverse)

/-- JS `replace(/\s+/g, " ")`, as a scanner: a whitespace character opens
(or continues) a run, and each maximal run becomes one space.  The flag
records whether the previous character was whitespace. -/
def collapseWsAux : Bool → List Char → List Char
  | _, [] => []
  | prevWs, c :: rest =>
      if isJsWhitespace c then
        if prevWs then collapseWsAux true rest
        else ' ' :: collapseWsAux true rest
      else c :: collapseWsAux false rest

/-- JS `replace(/\s+/g, " ")`: every maximal whitespace run becomes one
space. -/
def collapseWs (l : List Char) : List Char := collapseWsAux false l

/-- JS `slice(0, n)` / `substring(0, n)` for `0 ≤ n`. -/
def jsSlice0 (s : String) (n : Nat) : String := String.mk (s.toList.take n)

/-- JS `toLowerCase` (over the ASCII range the signature tables use). -/
def toLowerStr (s : String) : String := String.mk (s.toList.map Char.toLower)

/-- Is the first list a prefix of the second? -/
def isPrefixCharList : List Char → List Char → Bool
  | [], _ => true
  | _ :: _, [] => false
  | a :: as, b :: bs => a == b && isPrefixCharList as bs

/-- Does the needle occur at some position of the haystack? -/
def containsSubList (needle : List Char) : List Char → Bool
  | [] => isPrefixCharList needle []
  | c :: rest => isPrefixCharList needle (c :: rest) || containsSubList needle rest

/-- JS `haystack.includes(needle)`. -/
def containsSub (haystack needle : String) : Bool :=
  containsSubList needle.toList haystack.toList

/-- The shared tail of both `summarizeError` revisions: cap at 200
characters, appending `"..."`. -/
def capAt200 (clean : String) : String :=
  if 200 < clean.length then jsSlice0 clean 200 ++ "..." else clean

/-! ## Response shaping of the core processor (`src/src/core/auth.ts`)

`runClaude` (lines 286-351) and `processWithCodex` (lines 353-420) spawn
the CLI and then shape `(exitCode, stdout, stderr)` into the resolved
string; that pure shaping is embedded here.  `summarizeError`
(lines 430-452), `isRateLimit` (454-456) and `isCodexAuthError` (458-464)
are the helpers they use. -/

/-- auth.ts:435-439, the regex `/^\s*\d+\s*\|/`: an (indented) line number
followed by `|` — a Bun stack-trace source line. -/
def isStackSrcLine (l : String) : Bool :=
  let rest := l.toList.dropWhile isJsWhitespace
  let digits := rest.takeWhile Char.isDigit
  let rest2 := (rest.dropWhile Char.isDigit).dropWhile isJsWhitespace
  decide (digits ≠ []) &&
    (match rest2 with
     | c :: _ => c == '|'
     | [] => false)

/-- auth.ts:438, the regex `/^\s*\^+\s*$/`: a caret pointer line. -/
def isCaretLine (l : String) : Bool :=
  let rest := l.toList.dropWhile isJsWhitespace
  let carets := rest.takeWhile (fun c => c == '^')
  let rest2 := (rest.dropWhile (fun c => c == '^')).dropWhile isJsWhitespace
  decide (carets ≠ []) && decide (rest2 = [])

/-- The alternation of auth.ts:443 (`/^\s*(error|Error|TypeError|…)[:]/i`),
lowercased; `Error` collapses into `error` under `/i`. -/
def errorLineKeywords : List String :=
  ["error", "typeerror", "referenceerror", "syntaxerror", "rangeerror",
   "enoent", "eacces", "fatal"]

/-- auth.ts:442-444: does the trimmed line start (case-insensitively) with
one of the error keywords followed by `:`?  (`^\s*` is spent by the
`trim()` the source applies first.) -/
def isErrorLine (l : String) : Bool :=
  let t := toLowerStr (jsTrim l)
  errorLineKeywords.any (fun kw => isPrefixCharList (kw ++ ":").toList t.toList)

/-- auth.ts:430-452, `summarizeError` up to the whitespace collapse: drop
stack-trace source and caret lines, prefer the first explicit error line
(trimmed), else the non-blank lines joined by spaces and trimmed, else the
fixed fallback text. -/
def summaryOf (raw : String) : String :=
  let lines := raw.splitOn "\n"
  let meaningful := lines.filter (fun l => !(isStackSrcLine l) && !(isCaretLine l))
  let joined := jsTrim (String.intercalate " "
    (meaningful.filter (fun l => !(jsTrim l == ""))))
  match meaningful.find? isErrorLine with
  | some l =>
      if jsTrim l = "" then
        (if joined = "" then "process ended without details." else joined)
      else jsTrim l
  | none =>
      if joined = "" then "process ended without details." else joined

/-- auth.ts:430-452, `summarizeError`: summary, whitespace-collapsed,
capped at 200 characters. -/
def summarizeError (raw : String) : String :=
  if jsTrim raw = "" then "process ended without details."
  else capAt200 (String.mk (collapseWs (summaryOf raw).toList))

/-- An apostrophe, for the rate-limit signature text. -/
def apostrophe : String := String.mk [Char.ofNat 39]

/-- auth.ts:454-456, `/you'?ve hit your limit|rate limit|quota|credits.*(exceeded|exhausted)/i`.
The `credits.*(…)` branch is modelled as "`exceeded` or `exhausted` occurs
after some occurrence of `credits`" (the JS `.` does not cross a newline;
that refinement is immaterial to the claims over this predicate). -/
def isRateLimit (output : String) : Bool :=
  let lower := toLowerStr output
  containsSub lower ("you" ++ apostrophe ++ "ve hit your limit")
    || containsSub lower "youve hit your limit"
    || containsSub lower "rate limit"
    || containsSub lower "quota"
    || (match lower.splitOn "credits" with
        | [] => false
        | [_] => false
        | _ :: rest =>
            let tailPart := String.intercalate "credits" rest
            containsSub tailPart "exceeded" || containsSub tailPart "exhausted")

/-- Matching of `/401\s+Unauthorized/i` at the head of a (lowercased)
character list: `401`, at least one whitespace, then `unauthorized`. -/
def starts401Unauthorized (l : List Char) : Bool :=
  match l with
  | '4' :: '0' :: '1' :: rest =>
      decide (rest.takeWhile isJsWhitespace ≠ []) &&
        List.isPrefixOf "unauthorized".toList (rest.dropWhile isJsWhitespace)
  | _ => false

/-- `/401\s+Unauthorized/i` over the whole (lowercased) string. -/
def has401Unauthorized : List Char → Bool
  | [] => false
  | c :: rest => starts401Unauthorized (c :: rest) || has401Unauthorized rest

/-- auth.ts:458-464, `isCodexAuthError`. -/
def isCodexAuthError (output : String) : Bool :=
  let lower := toLowerStr output
  containsSub lower "missing bearer authentication in header"
    || (has401Unauthorized lower.toList && containsSub lower "bearer")
    || (containsSub lower "failed to refresh available models"
        && containsSub lower "unauthorized")

/-- auth.ts:184. -/
def CLAUDE_RATE_LIMIT_MESSAGE : String :=
  "Claude is out of credits right now. Please try again in a few minutes."

/-- auth.ts:185-188 (the two lines joined with a newline). -/
def CODEX_AUTH_REQUIRED_MESSAGE : String :=
  "Codex login is required.\nRun: codex login --device-auth (or set OPENAI_API_KEY in ~/.arisa/.env) then restart Arisa."

/-- config.ts:133: `maxResponseLength: 4000`. -/
def maxResponseLength : Nat := 4000

/-- The suffix appended by the truncation branch (auth.ts:347 and 416). -/
def truncationNotice : String := "\n\n[Response truncated...]"

/-- auth.ts:326-350, the shaping `runClaude` applies to the subprocess
outcome: non-zero exit yields the rate-limit message or a summarized
error; a successful run is trimmed, the empty answer replaced, and any
answer longer than `maxResponseLength` cut to `maxResponseLength - 100`
characters plus the truncation notice. -/
def runClaudeResult (exitCode : Nat) (stdout stderr : String) : String :=
  if exitCode ≠ 0 then
    if isRateLimit (stdout ++ stderr) then CLAUDE_RATE_LIMIT_MESSAGE
    else
      "Error (exit " ++ toString exitCode ++ "): " ++
        summarizeError (if stderr == "" then stdout else stderr)
  else
    if jsTrim stdout == "" then "Claude returned an empty response."
    else if maxResponseLength < (jsTrim stdout).length then
      jsSlice0 (jsTrim stdout) (maxResponseLength - 100) ++ truncationNotice
    else jsTrim stdout

/-- auth.ts:395-419, the analogous shaping in `processWithCodex` (combined
output is `stdout ++ "\n" ++ stderr`; the generic failure text carries no
detail). -/
def codexResult (exitCode : Nat) (stdout stderr : String) : String :=
  if exitCode ≠ 0 then
    if isCodexAuthError (stdout ++ "\n" ++ stderr) then CODEX_AUTH_REQUIRED_MESSAGE
    else "Error processing with Codex. Please try again."
  else
    if jsTrim stdout == "" then "Codex returned an empty response."
    else if maxResponseLength < (jsTrim stdout).length then
      jsSlice0 (jsTrim stdout) (maxResponseLength - 100) ++ truncationNotice
    else jsTrim stdout

/-- auth.ts:273-279: what `processNext` resolves — the `runClaude` result,
or, when `runClaude` throws `msg`, the catch string
`"Error: " ++ summarizeError msg`. -/
def claudeResolved (outcome : Except String (Nat × String × String)) : String :=
  match outcome with
  | Except.ok (code, out, err) => runClaudeResult code out err
  | Except.error msg => "Error: " ++ summarizeError msg

/-- A 4 200-character CLI answer, for exercising the truncation branch. -/
def exLongOutput : String := String.mk (List.replicate 4200 'a')

/-! ## Daemon agent-CLI fallback (`src/unnamed/part_003` lines 17-118)

`runWithCliFallback` tries each available CLI in order via `runSingleCli`.
Each `runSingleCli` call either resolves with the spawned process's
`(stdout, stderr, exitCode)` or throws; an oracle
`AgentCli → Except String RawResult` injects those outcomes.  The source's
mutable loop (`attempted`, `failures`, `partial`) becomes an accumulator
recursion. -/

/-- `type AgentCli = "claude" | "codex"` (agent-cli line 17). -/
inductive AgentCli
  | claude
  | codex
deriving DecidableEq, Repr

/-- agent-cli lines 40-42. -/
def getAgentCliLabel : AgentCli → String
  | AgentCli.claude => "Claude"
  | AgentCli.codex => "Codex"

/-- agent-cli lines 19-25 (`CliExecutionResult`); the source field
`partial` is spelled `partialFlag` here. -/
structure CliExecutionResult where
  cli : AgentCli
  output : String
  stderr : String
  exitCode : Int
  partialFlag : Bool
deriving DecidableEq, Repr

/-- agent-cli lines 27-31 (`CliFallbackOutcome`). -/
structure CliFallbackOutcome where
  result : Option CliExecutionResult
  attempted : List AgentCli
  failures : List String
deriving DecidableEq, Repr

/-- What one `runSingleCli` call produced. -/
structure RawResult where
  output : String
  stderr : String
  exitCode : Int
deriving DecidableEq, Repr

/-- agent-cli lines 114-118, the daemon's `summarizeError`: collapse
whitespace, trim, `"no details"` if empty, cap at 200 characters. -/
def summarizeErrorDaemon (raw : String) : String :=
  let clean := jsTrim (String.mk (collapseWs raw.toList))
  if clean = "" then "no details" else capAt200 clean

/-- agent-cli lines 82-109, the body of `runWithCliFallback`'s `for` loop
with accumulators `attempted`, `failures` and `partial` (here
`partialCand`): a CLI with exit 0 and non-empty trimmed output returns
immediately; otherwise a non-zero-exit, non-empty output is remembered as
the partial candidate when none is held yet, a failure reason is recorded,
and the next CLI is tried; a thrown error records a failure and moves on. -/
def runCliLoop (oracle : AgentCli → Except String RawResult) :
    List AgentCli → List AgentCli → List String →
    Option CliExecutionResult → CliFallbackOutcome
  | [], attempted, failures, partialCand =>
      { result := partialCand, attempted := attempted, failures := failures }
  | cli :: rest, attempted, failures, partialCand =>
      match oracle cli with
      | Except.ok r =>
          if r.exitCode = 0 ∧ jsTrim r.output ≠ "" then
            { result := some
                { cli := cli, output := jsTrim r.output, stderr := r.stderr
                  exitCode := r.exitCode, partialFlag := false }
              attempted := attempted ++ [cli]
              failures := failures }
          else
            runCliLoop oracle rest (attempted ++ [cli])
              (failures ++
                [getAgentCliLabel cli ++ " " ++
                  (if r.exitCode = 0 then "empty output"
                   else
                     "exit=" ++ toString r.exitCode ++ ": " ++
                       summarizeErrorDaemon
                         (if r.stderr == "" then r.output else r.stderr))])
              (if r.exitCode ≠ 0 ∧ jsTrim r.output ≠ "" ∧ partialCand = none then
                 some
                   { cli := cli, output := jsTrim r.output, stderr := r.stderr
                     exitCode := r.exitCode, partialFlag := true }
               else partialCand)
      | Except.error msg =>
          runCliLoop oracle rest (attempted ++ [cli])
            (failures ++
              [getAgentCliLabel cli ++ " error: " ++ summarizeErrorDaemon msg])
            partialCand

/-- agent-cli lines 76-112: run the loop over the available CLIs with empty
accumulators. -/
def runWithCliFallback (candidates : List AgentCli)
    (oracle : AgentCli → Except String RawResult) : CliFallbackOutcome :=
  runCliLoop oracle candidates [] [] none

/-- Spec-level companion (the spec's "take the first that exits 0 with
non-empty output"): the first successful CLI's result, if any. -/
def specFirstSuccess (oracle : AgentCli → Except String RawResult) :
    List AgentCli → Option CliExecutionResult
  | [] => none
  | cli :: rest =>
      match oracle cli with
      | Except.ok r =>
          if r.exitCode = 0 ∧ jsTrim r.output ≠ "" then
            some
              { cli := cli, output := jsTrim r.output, stderr := r.stderr
                exitCode := r.exitCode, partialFlag := false }
          else specFirstSuccess oracle rest
      | Except.error _ => specFirstSuccess oracle rest

/-- Spec-level companion (the spec's low-confidence "partial" candidate):
the first CLI that produced output but exited non-zero. -/
def specFirstPartial (oracle : AgentCli → Except String RawResult) :
    List AgentCli → Option CliExecutionResult
  | [] => none
  | cli :: rest =>
      match oracle cli with
      | Except.ok r =>
          if r.exitCode = 0 ∧ jsTrim r.output ≠ "" then specFirstPartial oracle rest
          else if r.exitCode ≠ 0 ∧ jsTrim r.output ≠ "" then
            some
              { cli := cli, output := jsTrim r.output, stderr := r.stderr
                exitCode := r.exitCode, partialFlag := true }
          else specFirstPartial oracle rest
      | Except.error _ => specFirstPartial oracle rest

/-- First-some choice on optional CLI results. -/
def orElseOpt (a b : Option CliExecutionResult) : Option CliExecutionResult :=
  match a with
  | some r => some r
  | none => b

/-! ## Daemon fallback invoker (`src/src/daemon/fallback.ts`, and the
`src/unnamed/part_002` revision with `looksLikeCliError`) -/

/-- part_002 lines 39-55: CLI output that is an error message, not an
answer. -/
def looksLikeCliError (output : String) : Bool :=
  ["authentication_error", "invalid bearer token", "invalid api key",
   "api error: 401", "api error: 403", "failed to authenticate",
   "permission_error", "rate_limit_error", "overloaded_error",
   "api error: 429", "api error: 529"].any
    (fun p => containsSub (toLowerStr output) p)

/-- fallback.ts lines 18-49, `fallbackClaude` as a function of the
`runWithCliFallback` outcome (or the error it threw): every internal
failure becomes an apology/status string; a result's output is forwarded
(or the empty-response notice when it is empty). -/
def fallbackClaude (outcome : Except String CliFallbackOutcome) : String :=
  match outcome with
  | Except.error _ =>
      "[Fallback mode] Could not reach fallback CLI. Core is down and fallback is unavailable. Please check server logs."
  | Except.ok o =>
      match o.result with
      | none =>
          if o.attempted.isEmpty then
            "[Fallback mode] Neither Claude nor Codex CLI is available. Core is down and fallback is unavailable."
          else
            "[Fallback mode] Claude and Codex fallback both failed. Core is down and fallback is unavailable. Please check server logs."
      | some r =>
          if r.output == "" then
            "[Fallback mode] Empty response from " ++ getAgentCliLabel r.cli ++ " CLI."
          else r.output

/-- part_002 lines 57-93, the `fallbackClaude` revision that additionally
vets a partial result: output that looks like a raw CLI error is replaced
by a CLI-failed notice instead of being forwarded. -/
def fallbackClaudeChecked (outcome : Except String CliFallbackOutcome) : String :=
  match outcome with
  | Except.error _ =>
      "[Fallback mode] Could not reach fallback CLI. Core is down and fallback is unavailable. Please check server logs."
  | Except.ok o =>
      match o.result with
      | none =>
          if o.attempted.isEmpty then
            "[Fallback mode] Neither Claude nor Codex CLI is available. Core is down and fallback is unavailable."
          else
            "[Fallback mode] Claude and Codex fallback both failed. Core is down and fallback is unavailable. Please check server logs."
      | some r =>
          if r.partialFlag && looksLikeCliError r.output then
            "[Fallback mode] " ++ getAgentCliLabel r.cli ++ " CLI failed (exit " ++
              toString r.exitCode ++ "). Please check server logs."
          else if r.output == "" then
            "[Fallback mode] Empty response from " ++ getAgentCliLabel r.cli ++ " CLI."
          else r.output

/-- The oracle of the C7 counterexample: the only available CLI exits 1
with an authentication error printed on stdout. -/
def exC7Oracle : AgentCli → Except String RawResult
  | AgentCli.claude =>
      Except.ok
        { output := "authentication_error: invalid api key", stderr := ""
          exitCode := 1 }
  | AgentCli.codex => Except.error "spawn failed"

/-! ## Bridge (`src/unnamed/part_003` lines 120-285, `sendToCore`)

`sendToCore` reads the lifecycle state and routes: `starting` waits up to
15 s then posts (with one retry) and falls back; `up` posts with one retry
then falls back; `down` goes straight to fallback, whose CLI invocation is
chained on `fallbackQueue`.  Failure of each awaited call is injected
through an environment; Lean's `Except` makes every uncaught rejection a
visible `error` value. -/

/-- `CoreResponse` (shared/types): the object `sendToCore` resolves with. -/
structure CoreResponse where
  text : String
deriving DecidableEq, Repr

/-- The environment of one `sendToCore` call: the lifecycle state read at
entry, the `waitForCoreReady` verdict, the outcomes of the at most two
`postToCore` attempts, and the outcome of `runWithCliFallback` inside
`fallbackClaude`. -/
structure BridgeEnv where
  state : CoreState
  ready : Bool
  post1 : Except String CoreResponse
  post2 : Except String CoreResponse
  cliOutcome : Except String CliFallbackOutcome

/-- bridge lines 228-249 (`runFallback`): chain `fallbackClaude` onto the
fallback queue and resolve with its text (`fallbackClaude` never throws,
so the awaited chained promise fulfills). -/
def runFallbackB (env : BridgeEnv) : Except String CoreResponse :=
  Except.ok { text := fallbackClaude env.cliOutcome }

/-- bridge lines 171-196 (`handleStarting`): wait for readiness; when ready
try `postToCore`, on failure retry once, on repeated failure fall through
to fallback; when the wait times out (or the core went down) fall back. -/
def handleStarting (env : BridgeEnv) : Except String CoreResponse :=
  if env.ready then
    match env.post1 with
    | Except.ok r => Except.ok r
    | Except.error _ =>
        match env.post2 with
        | Except.ok r => Except.ok r
        | Except.error _ => runFallbackB env
  else runFallbackB env

/-- bridge lines 201-223 (`handleUp`): try `postToCore`, retry once after a
delay, then fall back. -/
def handleUp (env : BridgeEnv) : Except String CoreResponse :=
  match env.post1 with
  | Except.ok r => Except.ok r
  | Except.error _ =>
      match env.post2 with
      | Except.ok r => Except.ok r
      | Except.error _ => runFallbackB env

/-- bridge lines 149-166 (`sendToCore`): route on the lifecycle state. -/
def sendToCore (env : BridgeEnv) : Except String CoreResponse :=
  match env.state with
  | CoreState.starting => handleStarting env
  | CoreState.up => handleUp env
  | CoreState.down => runFallbackB env

/-- A worst-case bridge environment: Core down, both posts refused, the
fallback CLI run itself throwing. -/
def exBridgeEnv : BridgeEnv :=
  { state := CoreState.down, ready := false
    post1 := Except.error "ECONNREFUSED", post2 := Except.error "ECONNREFUSED"
    cliOutcome := Except.error "spawn failed" }

/-- An outcome with no CLI installed at all. -/
def exOutcomeNoCli : CliFallbackOutcome :=
  { result := none, attempted := [], failures := [] }

/-- An outcome where every installed CLI failed without output. -/
def exOutcomeAllFailed : CliFallbackOutcome :=
  { result := none, attempted := [AgentCli.claude, AgentCli.codex]
    failures := ["Claude exit=1: no details", "Codex error: spawn failed"] }

/-! ## Fallback serialization (bridge `fallbackQueue`, part_003 lines
146-147 and 243-245)

`let fallbackQueue: Promise<string> = Promise.resolve("")`, and per call
`const result = fallbackQueue.then(() => fallbackClaude(...));
fallbackQueue = result.catch(() => "")`.  The promise semantics are
embedded as a transition system over the chained jobs, indexed in arrival
order: a job's `fallbackClaude` invocation (its `.then` callback) can only
start once the promise it was chained on has settled, and because of the
`.catch(() => "")` the tail settles whether the previous invocation
fulfilled or rejected — so a failed fallback does not break the chain.
The scheduler (event loop) is an arbitrary interleaving respecting those
two rules. -/

/-- The lifecycle of one chained fallback job. -/
inductive JobPhase
  | waiting
  | running
  | done (ok : Bool)
deriving DecidableEq, Repr

/-- What the underlying CLI invoker observes: invocation `i` starting, or
settling (`ok` = fulfilled). -/
inductive FbEvent
  | start (i : Nat)
  | finish (i : Nat) (ok : Bool)
deriving DecidableEq, Repr

/-- The chained jobs (index = arrival order) and the observation log. -/
structure FbState where
  phases : List JobPhase
  log : List FbEvent
deriving DecidableEq, Repr

/-- The event-loop steps: `submit` chains a new call onto `fallbackQueue`;
`start i` runs job `i`'s `.then` callback, allowed only when the tail it
was chained on has settled (`i = 0` chains on `Promise.resolve("")`, and
otherwise job `i-1` must be done — with either outcome, because of the
`.catch`); `finish i ok` is job `i`'s `fallbackClaude` promise settling. -/
inductive FbStep : FbState → FbState → Prop
  | submit (s : FbState) :
      FbStep s { phases := s.phases ++ [JobPhase.waiting], log := s.log }
  | start (s : FbState) (i : Nat)
      (hwait : s.phases[i]? = some JobPhase.waiting)
      (hprev : i = 0 ∨ ∃ ok, s.phases[i - 1]? = some (JobPhase.done ok)) :
      FbStep s
        { phases := s.phases.set i JobPhase.running
          log := s.log ++ [FbEvent.start i] }
  | finish (s : FbState) (i : Nat) (ok : Bool)
      (hrun : s.phases[i]? = some JobPhase.running) :
      FbStep s
        { phases := s.phases.set i (JobPhase.done ok)
          log := s.log ++ [FbEvent.finish i ok] }

/-- The initial state: `fallbackQueue = Promise.resolve("")`, no jobs. -/
def fbInit : FbState := { phases := [], log := [] }

/-- States the event loop can reach. -/
def FbReachable (s : FbState) : Prop := Relation.ReflTransGen FbStep fbInit s

/-- The strictly serialized log of the settled jobs `k, k+1, …`. -/
def doneLog : List Bool → Nat → List FbEvent
  | [], _ => []
  | ok :: rest, k => FbEvent.start k :: FbEvent.finish k ok :: doneLog rest (k + 1)

/-- The canonical phase list: settled jobs first, then (at most) the one
running job, then the waiting ones. -/
def canonicalPhases (outcomes : List Bool) (running : Bool) (waiting : Nat) :
    List JobPhase :=
  outcomes.map JobPhase.done ++
    (if running then [JobPhase.running] else []) ++
    List.replicate waiting JobPhase.waiting

/-- The canonical log: the settled jobs strictly in order, one start/finish
pair each, followed by the start of the running job if there is one. -/
def canonicalLog (outcomes : List Bool) (running : Bool) : List FbEvent :=
  doneLog outcomes 0 ++
    (if running then [FbEvent.start outcomes.length] else [])

/-- A reachable fallback state is canonical: its log is exactly the
serialized sequence. -/
def FbCanonical (s : FbState) : Prop :=
  ∃ outcomes running waiting,
    s.phases = canonicalPhases outcomes running waiting ∧
    s.log = canonicalLog outcomes running

/-- The state after: two messages arrive, the first fallback runs and
fails, the second starts. -/
def exFbFinal : FbState :=
  { phases := [JobPhase.done false, JobPhase.running]
    log := [FbEvent.start 0, FbEvent.finish 0 false, FbEvent.start 1] }

theorem source_eq_task_of_ne_user {s : QueueSource} (h : s ≠ QueueSource.user) :
    s = QueueSource.task := by
  cases s
  · exact absurd rfl h
  · rfl

/-- `pickIdx` splits the queue as `pre ++ t :: post` where `pre` holds no
`"user"` ticket, and `t` is either a `"user"` ticket (the earliest one) or —
when the queue holds none — the queue head. -/
theorem pickIdx_spec (q : List Ticket) (hq : q ≠ []) :
    ∃ pre t post,
      q = pre ++ t :: post ∧ pickIdx q = pre.length ∧
      (∀ u ∈ pre, u.source = QueueSource.task) ∧
      (t.source = QueueSource.user ∨
        (pre = [] ∧ ∀ u ∈ q, u.source = QueueSource.task)) := by
  cases h : q.findIdx? (fun t => t.source == QueueSource.user) with
  | some i =>
      have hpick : pickIdx q = i := by unfold pickIdx; rw [h]
      obtain ⟨hi, hp, hj⟩ := List.findIdx?_eq_some_iff_getElem.mp h
      refine ⟨q.take i, q[i], q.drop (i + 1), ?_, ?_, ?_, Or.inl (by simpa using hp)⟩
      · conv_lhs => rw [← List.take_append_drop i q]
        rw [List.drop_eq_getElem_cons hi]
      · rw [hpick, List.length_take, Nat.min_eq_left (le_of_lt hi)]
      · intro u hu
        obtain ⟨j, hjl, hju⟩ := List.mem_iff_getElem.mp hu
        have hjt : j < i := lt_of_lt_of_le hjl (by simp [List.length_take])
        have := hj j hjt
        rw [List.getElem_take] at hju
        subst hju
        exact source_eq_task_of_ne_user (by simpa using this)
  | none =>
      have hpick : pickIdx q = 0 := by unfold pickIdx; rw [h]
      have hall := List.findIdx?_eq_none_iff.mp h
      cases q with
      | nil => exact absurd rfl hq
      | cons t rest =>
          refine ⟨[], t, rest, rfl, hpick, by simp, Or.inr ⟨rfl, ?_⟩⟩
          intro u hu
          exact source_eq_task_of_ne_user (by simpa using hall u hu)

/-- Behaviour of `processNext` on an idle, non-empty queue: it moves the
earliest `"user"` ticket — or, absent one, the queue head — to `inFlight`
and sets `processing`. -/
theorem processNext_spec (s : QState) (hp : s.processing = false)
    (hq : s.queue ≠ []) :
    ∃ pre t post,
      s.queue = pre ++ t :: post ∧
      processNext s =
        { s with
          processing := true
          queue := pre ++ post
          inFlight := s.inFlight ++ [t] } ∧
      (∀ u ∈ pre, u.source = QueueSource.task) ∧
      (t.source = QueueSource.user ∨
        (pre = [] ∧ ∀ u ∈ s.queue, u.source = QueueSource.task)) := by
  obtain ⟨pre, t, post, hsplit, hidx, hpre, hcase⟩ := pickIdx_spec s.queue hq
  refine ⟨pre, t, post, hsplit, ?_, hpre, hcase⟩
  have hget : s.queue[pickIdx s.queue]? = some t := by
    rw [hidx, hsplit, List.getElem?_append_right (le_refl pre.length)]
    simp
  have herase : s.queue.eraseIdx (pickIdx s.queue) = pre ++ post := by
    rw [hidx, hsplit, List.eraseIdx_append_of_length_le (le_refl pre.length)]
    simp
  have hne : s.queue.isEmpty = false := by
    rw [List.isEmpty_eq_false_iff_exists_mem]
    cases q : s.queue with
    | nil => exact absurd q hq
    | cons a l => exact ⟨a, by simp⟩
  unfold processNext
  rw [hp, hne, hget, herase]
  simp

/-- The surviving queue after a flush is the filter of the non-matching
tickets, in their original relative order. -/
theorem flushChatQueue_fst (q : List Ticket) (c : String) :
    (flushChatQueue q c).1 = q.filter (fun t => !(flushMatches c t)) := by
  induction q with
  | nil => rfl
  | cons t rest ih =>
      simp only [flushChatQueue, List.filter_cons]
      cases h : flushMatches c t <;> simp [h, ih]

/-- The resolutions a flush makes: exactly the matching tickets, each with
the empty string, in the backwards order the source loop visits them. -/
theorem flushChatQueue_snd (q : List Ticket) (c : String) :
    (flushChatQueue q c).2 =
      (q.filter (flushMatches c)).reverse.map
        (fun t =>
          { ticketId := t.id, source := t.source, result := ""
            kind := ResKind.flushed }) := by
  induction q with
  | nil => rfl
  | cons t rest ih =>
      simp only [flushChatQueue, List.filter_cons]
      cases h : flushMatches c t <;> simp [h, ih]

theorem qpre_queue_id_lt {s : QState} (h : QPre s) :
    ∀ t ∈ s.queue, t.id < s.nextId := by
  intro t ht
  have hmem : t.id ∈ List.range s.nextId := by
    refine h.ids_perm.mem_iff.mp ?_
    simp only [List.mem_append, List.mem_map]
    exact Or.inl (Or.inl ⟨t, ht, rfl⟩)
  simpa using hmem

theorem qpre_flight_id_lt {s : QState} (h : QPre s) :
    ∀ t ∈ s.inFlight, t.id < s.nextId := by
  intro t ht
  have hmem : t.id ∈ List.range s.nextId := by
    refine h.ids_perm.mem_iff.mp ?_
    simp only [List.mem_append, List.mem_map]
    exact Or.inl (Or.inr ⟨t, ht, rfl⟩)
  simpa using hmem

theorem qpre_resolved_id_lt {s : QState} (h : QPre s) :
    ∀ r ∈ s.resolved, r.ticketId < s.nextId := by
  intro r hr
  have hmem : r.ticketId ∈ List.range s.nextId := by
    refine h.ids_perm.mem_iff.mp ?_
    simp only [List.mem_append, List.mem_map]
    exact Or.inr ⟨r, hr, rfl⟩
  simpa using hmem

theorem mem_servicedOf {s : QState} {c : QueueSource} {i : Nat} :
    i ∈ servicedOf s c ↔
      ∃ r ∈ s.resolved,
        r.kind = ResKind.serviced ∧ r.source = c ∧ r.ticketId = i := by
  simp only [servicedOf, List.mem_map, List.mem_filter, Bool.and_eq_true, beq_iff_eq]
  constructor
  · rintro ⟨r, ⟨hr, hk, hc⟩, hi⟩
    exact ⟨r, hr, hk, hc, hi⟩
  · rintro ⟨r, hr, hk, hc, hi⟩
    exact ⟨r, ⟨hr, hk, hc⟩, hi⟩

/-- `processNext` preserves the invariant, and (re-)establishes the
idle-queue clause. -/
theorem processNext_inv {s : QState} (h : QPre s) : QInv (processNext s) := by
  by_cases hp : s.processing = true
  · have heq : processNext s = s := by
      unfold processNext; rw [hp]; simp
    rw [heq]
    exact { toQPre := h, idle_empty := fun hf => by rw [hp] at hf; cases hf }
  · have hp' : s.processing = false := by
      cases hb : s.processing
      · rfl
      · exact absurd hb hp
    by_cases hq : s.queue = []
    · have heq : processNext s = s := by
        unfold processNext; rw [hp']; simp [hq]
      rw [heq]
      exact { toQPre := h, idle_empty := fun _ => hq }
    · obtain ⟨pre, t, post, hsplit, hres, hpre, hcase⟩ := processNext_spec s hp' hq
      have hfl : s.inFlight = [] := by
        have hlen := h.flight_proc
        rw [hp'] at hlen
        simpa using hlen
      have hsort : List.Pairwise (fun a b : Ticket => a.id < b.id) (pre ++ t :: post) := by
        have hs := h.queue_sorted
        rw [hsplit, List.Sorted] at hs
        exact (List.pairwise_map).mp hs
      have hsort' := List.pairwise_append.mp hsort
      have hpost : ∀ u ∈ post, t.id < u.id :=
        fun u hu => (List.pairwise_cons.mp hsort'.2.1).1 u hu
      have htin : t ∈ s.queue := by
        rw [hsplit]; exact List.mem_append_right pre (List.mem_cons_self t post)
      have hsubq : ∀ u ∈ pre ++ post, u ∈ s.queue := by
        intro u hu
        rw [hsplit]
        rcases List.mem_append.mp hu with h1 | h1
        · exact List.mem_append_left _ h1
        · exact List.mem_append_right _ (List.mem_cons_of_mem t h1)
      rw [hres]
      refine ⟨⟨?_, ?_, ?_, ?_, ?_, ?_⟩, ?_⟩
      · -- flight_proc
        simp [hfl]
      · -- ids_perm
        have hperm := h.ids_perm
        rw [hsplit] at hperm
        simp only [hfl, List.map_append, List.map_cons, List.map_nil, List.nil_append,
          List.append_nil, List.append_assoc] at hperm ⊢
        refine List.Perm.trans (List.Perm.append_left _ ?_) hperm
        exact List.perm_middle
      · -- queue_sorted
        have hsub : List.Sublist ((pre ++ post).map Ticket.id) (s.queue.map Ticket.id) := by
          rw [hsplit]
          exact List.Sublist.map _ ((List.sublist_cons_self t post).append_left pre)
        exact List.Pairwise.sublist hsub h.queue_sorted
      · -- flight_lt
        intro t' ht' u hu hcls
        have ht'' : t' = t := by simpa [hfl] using ht'
        subst ht''
        rcases List.mem_append.mp hu with h1 | h1
        · rcases hcase with hu1 | ⟨hpe, _⟩
          · exact absurd ((hpre u h1).symm.trans (hcls.trans hu1)) (by decide)
          · rw [hpe] at h1
            exact absurd h1 (List.not_mem_nil u)
        · exact hpost u h1
      · -- serviced_lt
        intro r hr hk
        have hold := h.serviced_lt r hr hk
        refine ⟨fun u hu hcls => hold.1 u (hsubq u hu) hcls, ?_⟩
        intro u hu hcls
        have hu' : u = t := by simpa [hfl] using hu
        subst hu'
        exact hold.1 u htin hcls
      · -- serviced_sorted
        exact fun c => h.serviced_sorted c
      · -- idle_empty
        intro hf
        simp at hf

theorem perm_snoc_out (A B : List Nat) (n : Nat) :
    ((A ++ [n]) ++ B).Perm ((A ++ B) ++ [n]) := by
  rw [List.append_assoc, List.append_assoc]
  exact List.Perm.append_left A List.perm_append_comm

theorem perm_flush_shape (K V F R : List Nat) :
    ((K ++ F) ++ (R ++ V)).Perm (((K ++ V) ++ F) ++ R) := by
  rw [List.perm_iff_count]
  intro a
  simp only [List.count_append]
  omega

theorem qstep_submit_inv {s : QState} (h : QInv s) (c : String) (src : QueueSource) :
    QInv (qstep s (QEvent.submit c src)) := by
  apply processNext_inv
  have hql := qpre_queue_id_lt h.toQPre
  have hfli := qpre_flight_id_lt h.toQPre
  have hrl := qpre_resolved_id_lt h.toQPre
  refine ⟨?_, ?_, ?_, ?_, ?_, ?_⟩
  · simpa using h.flight_proc
  · -- ids_perm
    have hperm := h.ids_perm
    dsimp only
    simp only [List.map_append, List.map_cons, List.map_nil, List.range_succ]
    have hstep1 :
        ((s.queue.map Ticket.id ++ [s.nextId]) ++ s.inFlight.map Ticket.id ++
            s.resolved.map Resolution.ticketId).Perm
          (((s.queue.map Ticket.id ++ s.inFlight.map Ticket.id) ++ [s.nextId]) ++
            s.resolved.map Resolution.ticketId) :=
      List.Perm.append_right _ (perm_snoc_out _ _ _)
    have hstep2 :
        (((s.queue.map Ticket.id ++ s.inFlight.map Ticket.id) ++ [s.nextId]) ++
            s.resolved.map Resolution.ticketId).Perm
          (((s.queue.map Ticket.id ++ s.inFlight.map Ticket.id) ++
              s.resolved.map Resolution.ticketId) ++ [s.nextId]) :=
      perm_snoc_out _ _ _
    exact hstep1.trans (hstep2.trans (List.Perm.append_right _ hperm))
  · -- queue_sorted
    dsimp only
    simp only [List.map_append, List.map_cons, List.map_nil]
    refine List.pairwise_append.mpr ⟨h.queue_sorted, List.pairwise_singleton _ _, ?_⟩
    intro a ha b hb
    simp only [List.mem_singleton] at hb
    subst hb
    obtain ⟨u, hu, rfl⟩ := List.mem_map.mp ha
    exact hql u hu
  · -- flight_lt
    dsimp only
    intro t ht u hu hcls
    rcases List.mem_append.mp hu with h1 | h1
    · exact h.flight_lt t ht u h1 hcls
    · simp only [List.mem_singleton] at h1
      subst h1
      exact hfli t ht
  · -- serviced_lt
    dsimp only
    intro r hr hk
    have hold := h.serviced_lt r hr hk
    refine ⟨?_, hold.2⟩
    intro u hu hcls
    rcases List.mem_append.mp hu with h1 | h1
    · exact hold.1 u h1 hcls
    · simp only [List.mem_singleton] at h1
      subst h1
      exact hrl r hr
  · -- serviced_sorted
    exact fun c' => h.serviced_sorted c'

theorem qstep_complete_inv {s : QState} (h : QInv s) (res : String) :
    QInv (qstep s (QEvent.complete res)) := by
  cases hf : s.inFlight with
  | nil => simpa [qstep, hf] using h
  | cons t rest =>
      have hproc : s.processing = true := by
        by_contra hc
        have hp' : s.processing = false := by
          cases hb : s.processing
          · rfl
          · exact absurd hb hc
        have hlen := h.flight_proc
        rw [hp', hf] at hlen
        simp at hlen
      have hrest : rest = [] := by
        have hlen := h.flight_proc
        rw [hproc, hf] at hlen
        simpa using hlen
      subst hrest
      simp only [qstep, hf]
      apply processNext_inv
      have htmem : t ∈ s.inFlight := by rw [hf]; exact List.mem_cons_self t []
      refine ⟨?_, ?_, ?_, ?_, ?_, ?_⟩
      · simp
      · -- ids_perm
        have hperm := h.ids_perm
        rw [hf] at hperm
        dsimp only
        simp only [List.map_append, List.map_cons, List.map_nil, List.append_nil,
          List.nil_append] at hperm ⊢
        rw [← List.append_assoc]
        exact (perm_snoc_out _ _ _).symm.trans hperm
      · exact h.queue_sorted
      · dsimp only
        intro t' ht'
        simp at ht'
      · -- serviced_lt
        dsimp only
        intro r hr hk
        rcases List.mem_append.mp hr with h1 | h1
        · have hold := h.serviced_lt r h1 hk
          exact ⟨hold.1, fun u hu => absurd hu (by simp)⟩
        · simp only [List.mem_singleton] at h1
          subst h1
          refine ⟨?_, fun u hu => absurd hu (by simp)⟩
          intro u hu hcls
          exact h.flight_lt t htmem u hu hcls
      · -- serviced_sorted
        intro c'
        dsimp only
        simp only [servicedOf, List.filter_append, List.map_append]
        by_cases hcc : t.source = c'
        · have hfilter :
              List.filter (fun r => r.kind == ResKind.serviced && r.source == c')
                  [({ ticketId := t.id, source := t.source, result := res,
                      kind := ResKind.serviced } : Resolution)] =
                [{ ticketId := t.id, source := t.source, result := res,
                    kind := ResKind.serviced }] := by
            simp [List.filter, beq_iff_eq, hcc]
          rw [hfilter]
          simp only [List.map_cons, List.map_nil]
          refine List.pairwise_append.mpr ⟨h.serviced_sorted c', List.pairwise_singleton _ _, ?_⟩
          intro a ha b hb
          simp only [List.mem_singleton] at hb
          subst hb
          obtain ⟨r, hr, hks, hsrc, rfl⟩ := mem_servicedOf.mp ha
          exact (h.serviced_lt r hr hks).2 t htmem (hcc.trans hsrc.symm)
        · have hfilter :
              List.filter (fun r => r.kind == ResKind.serviced && r.source == c')
                  [({ ticketId := t.id, source := t.source, result := res,
                      kind := ResKind.serviced } : Resolution)] = [] := by
            have hbe : (t.source == c') = false := beq_eq_false_iff_ne.mpr hcc
            simp [List.filter, hbe]
          rw [hfilter]
          simpa using h.serviced_sorted c'

theorem qstep_flush_inv {s : QState} (h : QInv s) (c : String) :
    QInv (qstep s (QEvent.flush c)) := by
  have hfst := flushChatQueue_fst s.queue c
  have hsnd := flushChatQueue_snd s.queue c
  simp only [qstep, hfst, hsnd]
  have hkeepmem : ∀ u ∈ s.queue.filter (fun t => !(flushMatches c t)), u ∈ s.queue :=
    fun u hu => (List.mem_filter.mp hu).1
  have hvids :
      ((s.queue.filter (flushMatches c)).reverse.map
          (fun t =>
            ({ ticketId := t.id, source := t.source, result := ""
               kind := ResKind.flushed } : Resolution))).map Resolution.ticketId =
        (s.queue.filter (flushMatches c)).reverse.map Ticket.id := by
    rw [List.map_map]
    rfl
  refine ⟨⟨?_, ?_, ?_, ?_, ?_, ?_⟩, ?_⟩
  · exact h.flight_proc
  · -- ids_perm
    dsimp only
    have hperm := h.ids_perm
    simp only [List.map_append, hvids]
    have hbase :
        ((s.queue.filter fun t => !(flushMatches c t)) ++
            s.queue.filter (flushMatches c)).Perm s.queue :=
      List.Perm.trans List.perm_append_comm (List.filter_append_perm _ _)
    have hmap := hbase.map Ticket.id
    simp only [List.map_append] at hmap
    have hrev :
        ((s.queue.filter (flushMatches c)).reverse.map Ticket.id).Perm
          ((s.queue.filter (flushMatches c)).map Ticket.id) :=
      (List.reverse_perm _).map Ticket.id
    refine List.Perm.trans (List.Perm.append_left _ (List.Perm.append_left _ hrev)) ?_
    refine List.Perm.trans (perm_flush_shape _ _ _ _) ?_
    exact List.Perm.trans (List.Perm.append_right _ (List.Perm.append_right _ hmap)) hperm
  · -- queue_sorted
    exact List.Pairwise.sublist (List.Sublist.map _ (List.filter_sublist _)) h.queue_sorted
  · -- flight_lt
    dsimp only
    intro t ht u hu hcls
    exact h.flight_lt t ht u (hkeepmem u hu) hcls
  · -- serviced_lt
    dsimp only
    intro r hr hk
    rcases List.mem_append.mp hr with h1 | h1
    · have hold := h.serviced_lt r h1 hk
      exact ⟨fun u hu hcls => hold.1 u (hkeepmem u hu) hcls, hold.2⟩
    · obtain ⟨u, _, rfl⟩ := List.mem_map.mp h1
      cases hk
  · -- serviced_sorted
    intro c'
    dsimp only
    have hflushed :
        List.filter (fun r => r.kind == ResKind.serviced && r.source == c')
            ((s.queue.filter (flushMatches c)).reverse.map
              (fun t =>
                ({ ticketId := t.id, source := t.source, result := ""
                   kind := ResKind.flushed } : Resolution))) = [] := by
      rw [List.filter_eq_nil_iff]
      intro r hr
      obtain ⟨u, _, rfl⟩ := List.mem_map.mp hr
      simp
    simp only [servicedOf, List.filter_append, hflushed, List.append_nil]
    exact h.serviced_sorted c'
  · -- idle_empty
    intro hp
    rw [h.idle_empty hp]
    rfl

/-- Every event of the processor module preserves the invariant. -/
theorem qstep_inv {s : QState} (h : QInv s) (e : QEvent) : QInv (qstep s e) := by
  cases e with
  | submit c src => exact qstep_submit_inv h c src
  | complete res => exact qstep_complete_inv h res
  | flush c => exact qstep_flush_inv h c

theorem qfold_inv (es : List QEvent) : ∀ s : QState, QInv s → QInv (es.foldl qstep s) := by
  induction es with
  | nil => exact fun s hs => hs
  | cons e es ih => exact fun s hs => ih _ (qstep_inv hs e)

/-- The invariant holds in every reachable state. -/
theorem qrun_inv (es : List QEvent) : QInv (qrun es) := by
  have hinit : QInv initQState := by
    refine ⟨⟨?_, ?_, ?_, ?_, ?_, ?_⟩, ?_⟩ <;> simp [initQState, servicedOf]
  exact qfold_inv es initQState hinit

theorem processNext_nextId (s : QState) : (processNext s).nextId = s.nextId := by
  unfold processNext
  split
  · rfl
  · split <;> rfl

theorem qstep_complete_nextId (s : QState) (res : String) :
    (qstep s (QEvent.complete res)).nextId = s.nextId := by
  cases hf : s.inFlight with
  | nil => simp [qstep, hf]
  | cons t rest =>
      simp only [qstep, hf]
      exact processNext_nextId _

theorem processNext_queue_nil {s : QState} (h : s.queue = []) :
    processNext s = s := by
  unfold processNext
  simp [h]

theorem processNext_pending_eq (s : QState) (hp : s.processing = false) :
    pendingCount (processNext s) = pendingCount s := by
  by_cases hq : s.queue = []
  · rw [processNext_queue_nil hq]
  · obtain ⟨pre, t, post, hsplit, hres, _, _⟩ := processNext_spec s hp hq
    rw [hres]
    simp only [pendingCount, hsplit]
    simp
    omega

theorem qstep_complete_pending {s : QState} (h : QInv s)
    (hne : pendingCount s ≠ 0) (res : String) :
    pendingCount (qstep s (QEvent.complete res)) = pendingCount s - 1 := by
  cases hf : s.inFlight with
  | nil =>
      have hp' : s.processing = false := by
        cases hb : s.processing
        · rfl
        · have hlen := h.flight_proc
          rw [hb, hf] at hlen
          simp at hlen
      have hq := h.idle_empty hp'
      rw [pendingCount, hq, hf] at hne
      simp at hne
  | cons t rest =>
      have hproc : s.processing = true := by
        by_contra hc
        have hp' : s.processing = false := by
          cases hb : s.processing
          · rfl
          · exact absurd hb hc
        have hlen := h.flight_proc
        rw [hp', hf] at hlen
        simp at hlen
      have hrest : rest = [] := by
        have hlen := h.flight_proc
        rw [hproc, hf] at hlen
        simpa using hlen
      subst hrest
      simp only [qstep, hf]
      refine Eq.trans (processNext_pending_eq _ ?_) ?_
      · rfl
      · simp [pendingCount, hf]

theorem drainQ_drains :
    ∀ (n : Nat) (s : QState), QInv s → pendingCount s = n →
      (drainQ n s).queue = [] ∧ (drainQ n s).inFlight = [] ∧
      QInv (drainQ n s) ∧ (drainQ n s).nextId = s.nextId := by
  intro n
  induction n with
  | zero =>
      intro s hs hp
      rw [pendingCount] at hp
      have hq : s.queue = [] := List.length_eq_zero.mp (by omega)
      have hi : s.inFlight = [] := List.length_eq_zero.mp (by omega)
      exact ⟨hq, hi, hs, rfl⟩
  | succ n ih =>
      intro s hs hp
      have hstep := qstep_complete_pending hs (by omega) ""
      rw [hp] at hstep
      simp only [Nat.succ_sub_one] at hstep
      have hinv := qstep_complete_inv hs ""
      obtain ⟨h1, h2, h3, h4⟩ := ih (qstep s (QEvent.complete "")) hinv hstep
      refine ⟨h1, h2, h3, ?_⟩
      rw [drainQ]
      rw [h4, qstep_complete_nextId]

/-- **C1**: in every reachable state of the invocation queue at most one
CLI invocation is in flight (the `processing` flag gates `processNext`),
the resolution log never resolves a ticket twice, and once the in-flight
invocations are allowed to settle, every submitted ticket has been
resolved exactly once — serviced normally, serviced with the catch-clause
error string, or flushed by `flushChatQueue`. -/
theorem invocation_queue_single_flight_exactly_once (es : List QEvent) :
    (qrun es).inFlight.length ≤ 1 ∧
    ((qrun es).resolved.map Resolution.ticketId).Nodup ∧
    (∀ i, i < (qrun es).nextId →
      List.count i
        ((drainQ (pendingCount (qrun es)) (qrun es)).resolved.map
          Resolution.ticketId) = 1) := by
  have h := qrun_inv es
  refine ⟨?_, ?_, ?_⟩
  · rw [h.flight_proc]
    cases (qrun es).processing <;> simp
  · have hnd : ((qrun es).queue.map Ticket.id ++ (qrun es).inFlight.map Ticket.id ++
        (qrun es).resolved.map Resolution.ticketId).Nodup :=
      h.ids_perm.nodup_iff.mpr (List.nodup_range _)
    exact List.Nodup.sublist (List.sublist_append_right _ _) hnd
  · intro i hi
    obtain ⟨hq, hf, hinv, hnext⟩ :=
      drainQ_drains (pendingCount (qrun es)) (qrun es) h rfl
    have hperm := hinv.ids_perm
    rw [hq, hf, hnext] at hperm
    simp only [List.map_nil, List.nil_append] at hperm
    have hnd : ((drainQ (pendingCount (qrun es)) (qrun es)).resolved.map
        Resolution.ticketId).Nodup :=
      hperm.nodup_iff.mpr (List.nodup_range _)
    have hmem : i ∈ (drainQ (pendingCount (qrun es)) (qrun es)).resolved.map
        Resolution.ticketId :=
      hperm.mem_iff.mpr (List.mem_range.mpr hi)
    exact List.count_eq_one_of_mem hnd hmem

/-- **C4**: when `processNext` runs with nothing in flight and a non-empty
queue, the ticket it selects is the earliest-queued `"user"` ticket when one
exists (everything queued before it is a `"task"` ticket), and otherwise the
earliest-queued ticket of any source (the head); and over any run, the
serviced tickets of each source class are serviced in FIFO (submission-id)
order. -/
theorem drain_priority_pick_and_fifo :
    (∀ s : QState, s.processing = false → s.queue ≠ [] →
      ∃ pre t post,
        s.queue = pre ++ t :: post ∧
        (processNext s).queue = pre ++ post ∧
        (processNext s).inFlight = s.inFlight ++ [t] ∧
        (∀ u ∈ pre, u.source = QueueSource.task) ∧
        (t.source = QueueSource.user ∨
          (pre = [] ∧ ∀ u ∈ s.queue, u.source = QueueSource.task))) ∧
    (∀ (es : List QEvent) (c : QueueSource),
      List.Sorted (· < ·) (servicedOf (qrun es) c)) := by
  constructor
  · intro s hp hq
    obtain ⟨pre, t, post, h1, h2, h3, h4⟩ := processNext_spec s hp hq
    exact ⟨pre, t, post, h1, by rw [h2], by rw [h2], h3, h4⟩
  · intro es c
    exact (qrun_inv es).serviced_sorted c

/-- **C3**: a flush removes exactly the still-queued tickets of the given
chat whose source is `"task"`, resolving each with the empty string; every
`"user"` ticket, every ticket of another chat, and the in-flight invocation
are untouched, and the survivors keep their original relative order. -/
theorem flushChatQueue_exact_effect (s : QState) (c : String) :
    (qstep s (QEvent.flush c)).queue =
      s.queue.filter (fun t => !(flushMatches c t)) ∧
    List.Sublist (qstep s (QEvent.flush c)).queue s.queue ∧
    (qstep s (QEvent.flush c)).resolved =
      s.resolved ++
        (s.queue.filter (flushMatches c)).reverse.map
          (fun t =>
            { ticketId := t.id, source := t.source, result := ""
              kind := ResKind.flushed }) ∧
    (qstep s (QEvent.flush c)).inFlight = s.inFlight ∧
    (qstep s (QEvent.flush c)).processing = s.processing ∧
    (∀ t ∈ s.queue, t.source = QueueSource.user →
      t ∈ (qstep s (QEvent.flush c)).queue) ∧
    (∀ t ∈ s.queue, t.chatId ≠ c → t ∈ (qstep s (QEvent.flush c)).queue) := by
  have hfst := flushChatQueue_fst s.queue c
  have hsnd := flushChatQueue_snd s.queue c
  refine ⟨by simp [qstep, hfst], ?_, by simp [qstep, hsnd], rfl, rfl, ?_, ?_⟩
  · have : (qstep s (QEvent.flush c)).queue =
        s.queue.filter (fun t => !(flushMatches c t)) := by simp [qstep, hfst]
    rw [this]
    exact List.filter_sublist _
  · intro t ht hu
    have hm : flushMatches c t = false := by
      simp only [flushMatches, hu]
      simp
    simp only [qstep, hfst]
    exact List.mem_filter.mpr ⟨ht, by simp [hm]⟩
  · intro t ht hc
    have hm : flushMatches c t = false := by
      have hbe : (t.chatId == c) = false := beq_eq_false_iff_ne.mpr hc
      simp [flushMatches, hbe]
    simp only [qstep, hfst]
    exact List.mem_filter.mpr ⟨ht, by simp [hm]⟩

theorem invocation_queue_single_flight_exactly_once_witness :
    (qrun exEvents).inFlight.length ≤ 1 ∧
    ((qrun exEvents).resolved.map Resolution.ticketId).Nodup ∧
    List.count 1
      ((drainQ (pendingCount (qrun exEvents)) (qrun exEvents)).resolved.map
        Resolution.ticketId) = 1 := by
  obtain ⟨h1, h2, h3⟩ := invocation_queue_single_flight_exactly_once exEvents
  exact ⟨h1, h2, h3 1 (by decide)⟩

theorem drain_priority_pick_and_fifo_witness :
    (∃ pre t post,
      exPickState.queue = pre ++ t :: post ∧
      (processNext exPickState).queue = pre ++ post ∧
      (processNext exPickState).inFlight = exPickState.inFlight ++ [t] ∧
      (∀ u ∈ pre, u.source = QueueSource.task) ∧
      (t.source = QueueSource.user ∨
        (pre = [] ∧ ∀ u ∈ exPickState.queue, u.source = QueueSource.task))) ∧
    List.Sorted (· < ·) (servicedOf (qrun exEvents) QueueSource.task) :=
  ⟨drain_priority_pick_and_fifo.1 exPickState rfl (by decide),
    drain_priority_pick_and_fifo.2 exEvents QueueSource.task⟩

theorem flushChatQueue_exact_effect_witness :
    (qstep exFlushState (QEvent.flush "42")).queue =
      [{ id := 2, chatId := "42", source := QueueSource.user },
       { id := 3, chatId := "7", source := QueueSource.task }] ∧
    (qstep exFlushState (QEvent.flush "42")).inFlight = exFlushState.inFlight ∧
    (qstep exFlushState (QEvent.flush "42")).resolved =
      [{ ticketId := 1, source := QueueSource.task, result := ""
         kind := ResKind.flushed }] := by
  have h := flushChatQueue_exact_effect exFlushState "42"
  refine ⟨?_, h.2.2.2.1, ?_⟩
  · rw [h.1]
    decide
  · rw [h.2.2.1]
    decide

theorem chain_scanl {α β : Type} (R : β → β → Prop) (f : β → α → β)
    (hf : ∀ s a, R s (f s a)) :
    ∀ (l : List α) (b : β), List.Chain' R (List.scanl f b l) := by
  intro l
  induction l with
  | nil =>
      intro b
      simp [List.scanl]
  | cons a l ih =>
      intro b
      rw [List.scanl, List.chain'_cons']
      refine ⟨?_, ih (f b a)⟩
      intro c hc
      have hhead : (List.scanl f (f b a) l).head? = some (f b a) := by
        cases l <;> simp [List.scanl]
      rw [hhead] at hc
      have hce : f b a = c := by simpa using hc
      rw [← hce]
      exact hf b a

theorem lifeStep_allowed (s : CoreState) (e : LifeEvent) :
    allowedTransition s (lifeStep s e) := by
  cases s <;> cases e <;> simp [lifeStep, allowedTransition]

/-- **C5**: within one Core spawn lifetime the `coreState` value only
follows the permitted order — every step is the identity, `starting → up`,
`starting → down` or `up → down` — so the visited sequence from a
`startCore` spawn is a prefix of `starting → up → down` or
`starting → down` (or stays `down` past the crash-loop threshold); in
particular no in-lifetime step ever enters `starting`, so `up → starting`
never happens without an intervening spawn. -/
theorem coreState_monotone_per_spawn (crashCount : Nat) (es : List LifeEvent) :
    List.Chain' allowedTransition
      (List.scanl lifeStep (spawnState crashCount) es) ∧
    (∀ (s : CoreState) (e : LifeEvent),
      s ≠ CoreState.starting → lifeStep s e ≠ CoreState.starting) := by
  refine ⟨chain_scanl allowedTransition lifeStep lifeStep_allowed es _, ?_⟩
  intro s e hs
  cases s <;> cases e <;> simp_all [lifeStep]

theorem coreState_monotone_per_spawn_witness :
    List.Chain' allowedTransition
      (List.scanl lifeStep (spawnState 0)
        [LifeEvent.healthOk, LifeEvent.exit]) ∧
    lifeStep CoreState.up LifeEvent.healthOk ≠ CoreState.starting :=
  ⟨(coreState_monotone_per_spawn 0 [LifeEvent.healthOk, LifeEvent.exit]).1,
    (coreState_monotone_per_spawn 0 []).2 CoreState.up LifeEvent.healthOk
      (by decide)⟩

/-- **C6**: starting from a supervisor with no recent crash, no autofix in
progress and the error not yet handled, a first crash (more than 10 s after
the previous one) resets the crash counter to 1 and schedules a plain
restart after 2 000 ms; a second crash within 10 s (on the fresh spawn,
whose `errorHandled` starts false) drives the counter to 2 and invokes the
auto-fix handler instead of a restart. -/
theorem rapid_double_crash_triggers_autofix (st : SupState) (t1 t2 : Nat)
    (hrun : st.shouldRun = true) (hfix : st.autofixInProgress = false)
    (hgap : st.lastCrashAt + 10000 ≤ t1) (ht : t1 ≤ t2)
    (hrapid : t2 < t1 + 10000) :
    (onExit st t1).1.crashCount = 1 ∧
    (onExit st t1).2 = ExitAction.restartAfter 2000 ∧
    (onExit { (onExit st t1).1 with errorHandled := false } t2).1.crashCount = 2 ∧
    (onExit { (onExit st t1).1 with errorHandled := false } t2).2 =
      ExitAction.autofix := by
  have h1 : ¬(t1 - st.lastCrashAt < 10000) := by omega
  have h2 : t2 - t1 < 10000 := by omega
  have hfirst : onExit st t1 =
      ({ st with crashCount := 1, lastCrashAt := t1 },
        ExitAction.restartAfter 2000) := by
    simp [onExit, h1, hrun, hfix]
  rw [hfirst]
  refine ⟨rfl, rfl, ?_, ?_⟩ <;> simp [onExit, h2, hrun, hfix]

theorem rapid_double_crash_triggers_autofix_witness :
    (onExit exSupState 60000).1.crashCount = 1 ∧
    (onExit exSupState 60000).2 = ExitAction.restartAfter 2000 ∧
    (onExit { (onExit exSupState 60000).1 with errorHandled := false }
        65000).1.crashCount = 2 ∧
    (onExit { (onExit exSupState 60000).1 with errorHandled := false }
        65000).2 = ExitAction.autofix :=
  rapid_double_crash_triggers_autofix exSupState 60000 65000 rfl rfl
    (by decide) (by decide) (by decide)

theorem attemptAutoFixGate_refused {st : FixState} {now : Nat}
    (h3 : 3 ≤ st.attemptCount) (hwin : now - st.lastAttemptAt ≤ 120000) :
    attemptAutoFixGate st now = (st, FixAction.refused) := by
  have hno : ¬(120000 < now - st.lastAttemptAt) := by omega
  simp [attemptAutoFixGate, hno, h3]

/-- **C9**: `attemptAutoFix` is rate-limited.  Once 3 attempts are on the
counter, every further call made within 120 s of the last recorded attempt
is refused without invoking any CLI and leaves the limiter state unchanged
(so a whole burst of such calls is refused); within the window the counter
never decreases; and only a call more than 120 s after the last recorded
attempt resets the counter (to 0, immediately recorded as attempt 1). -/
theorem attemptAutoFix_rate_limited :
    (∀ (st : FixState) (now : Nat), 3 ≤ st.attemptCount →
      now - st.lastAttemptAt ≤ 120000 →
      attemptAutoFixGate st now = (st, FixAction.refused)) ∧
    (∀ (st : FixState) (ts : List Nat), 3 ≤ st.attemptCount →
      (∀ t ∈ ts, t - st.lastAttemptAt ≤ 120000) →
      ts.foldl (fun s t => (attemptAutoFixGate s t).1) st = st) ∧
    (∀ (st : FixState) (now : Nat), now - st.lastAttemptAt ≤ 120000 →
      st.attemptCount ≤ (attemptAutoFixGate st now).1.attemptCount) ∧
    (∀ (st : FixState) (now : Nat), 120000 < now - st.lastAttemptAt →
      attemptAutoFixGate st now =
        ({ lastAttemptAt := now, attemptCount := 1 }, FixAction.attempt 1)) := by
  refine ⟨fun st now h3 hwin => attemptAutoFixGate_refused h3 hwin, ?_, ?_, ?_⟩
  · intro st ts h3 hall
    induction ts with
    | nil => rfl
    | cons t ts ih =>
        have hstep : (attemptAutoFixGate st t).1 = st := by
          rw [attemptAutoFixGate_refused h3 (hall t (List.mem_cons_self t ts))]
        rw [List.foldl_cons, hstep]
        exact ih (fun u hu => hall u (List.mem_cons_of_mem t hu))
  · intro st now hwin
    have hno : ¬(120000 < now - st.lastAttemptAt) := by omega
    by_cases h3 : 3 ≤ st.attemptCount
    · simp [attemptAutoFixGate, hno, h3]
    · simp [attemptAutoFixGate, hno, h3]
  · intro st now hreset
    simp [attemptAutoFixGate, hreset]

theorem attemptAutoFix_rate_limited_witness :
    attemptAutoFixGate exFixState 1060000 = (exFixState, FixAction.refused) ∧
    List.foldl (fun s t => (attemptAutoFixGate s t).1) exFixState
      [1060000, 1100000] = exFixState ∧
    exFixState.attemptCount ≤
      (attemptAutoFixGate exFixState 1060000).1.attemptCount ∧
    attemptAutoFixGate exFixState 1200001 =
      ({ lastAttemptAt := 1200001, attemptCount := 1 }, FixAction.attempt 1) :=
  ⟨attemptAutoFix_rate_limited.1 exFixState 1060000 (by decide) (by decide),
    attemptAutoFix_rate_limited.2.1 exFixState [1060000, 1100000] (by decide)
      (by decide),
    attemptAutoFix_rate_limited.2.2.1 exFixState 1060000 (by decide),
    attemptAutoFix_rate_limited.2.2.2 exFixState 1200001 (by decide)⟩

theorem jsSlice0_length (s : String) (n : Nat) :
    (jsSlice0 s n).length = min n s.length := by
  show (s.toList.take n).length = min n s.length
  rw [List.length_take]
  rfl

theorem capAt200_length (s : String) : (capAt200 s).length ≤ 203 := by
  unfold capAt200
  split
  · rw [String.length_append, jsSlice0_length]
    have h1 : min 200 s.length ≤ 200 := Nat.min_le_left _ _
    have h3 : ("..." : String).length = 3 := rfl
    omega
  · omega

theorem summarizeError_length (raw : String) :
    (summarizeError raw).length ≤ 203 := by
  unfold summarizeError
  split
  · decide
  · exact capAt200_length _

theorem natToString_length_le : ∀ n : Nat, n < 256 → (toString n).length ≤ 3 := by
  intro n h
  have h1000 : n < 10 ^ 3 := lt_of_lt_of_le h (by norm_num)
  exact Nat.repr_length n 3 (by norm_num) h1000

theorem runClaudeResult_length_le (exitCode : Nat) (stdout stderr : String)
    (hcode : exitCode < 256) :
    (runClaudeResult exitCode stdout stderr).length ≤ maxResponseLength := by
  unfold runClaudeResult
  by_cases hex : exitCode ≠ 0
  · rw [if_pos hex]
    by_cases hrl : isRateLimit (stdout ++ stderr) = true
    · rw [if_pos hrl]
      decide
    · rw [if_neg hrl]
      rw [String.length_append, String.length_append, String.length_append]
      have h1 : ("Error (exit " : String).length = 12 := rfl
      have h2 : ("): " : String).length = 3 := rfl
      have h3 := natToString_length_le exitCode hcode
      have h4 := summarizeError_length (if stderr == "" then stdout else stderr)
      simp only [maxResponseLength]
      omega
  · rw [if_neg hex]
    by_cases hemp : (jsTrim stdout == "") = true
    · rw [if_pos hemp]
      decide
    · rw [if_neg hemp]
      by_cases hlong : maxResponseLength < (jsTrim stdout).length
      · rw [if_pos hlong]
        rw [String.length_append, jsSlice0_length]
        have h1 : truncationNotice.length = 25 := rfl
        have h2 : min (maxResponseLength - 100) (jsTrim stdout).length ≤
            maxResponseLength - 100 := Nat.min_le_left _ _
        simp only [maxResponseLength] at h2 ⊢
        omega
      · rw [if_neg hlong]
        simp only [maxResponseLength] at hlong ⊢
        omega

theorem codexResult_length_le (exitCode : Nat) (stdout stderr : String) :
    (codexResult exitCode stdout stderr).length ≤ maxResponseLength := by
  unfold codexResult
  by_cases hex : exitCode ≠ 0
  · rw [if_pos hex]
    by_cases hau : isCodexAuthError (stdout ++ "\n" ++ stderr) = true
    · rw [if_pos hau]
      decide
    · rw [if_neg hau]
      decide
  · rw [if_neg hex]
    by_cases hemp : (jsTrim stdout == "") = true
    · rw [if_pos hemp]
      decide
    · rw [if_neg hemp]
      by_cases hlong : maxResponseLength < (jsTrim stdout).length
      · rw [if_pos hlong]
        rw [String.length_append, jsSlice0_length]
        have h1 : truncationNotice.length = 25 := rfl
        have h2 : min (maxResponseLength - 100) (jsTrim stdout).length ≤
            maxResponseLength - 100 := Nat.min_le_left _ _
        simp only [maxResponseLength] at h2 ⊢
        omega
      · rw [if_neg hlong]
        simp only [maxResponseLength] at hlong ⊢
        omega

theorem runClaudeResult_truncates (stdout stderr : String)
    (hlong : maxResponseLength < (jsTrim stdout).length) :
    runClaudeResult 0 stdout stderr =
      jsSlice0 (jsTrim stdout) (maxResponseLength - 100) ++ truncationNotice ∧
    (runClaudeResult 0 stdout stderr).length = maxResponseLength - 75 := by
  have hne : jsTrim stdout ≠ "" := by
    intro h
    rw [h] at hlong
    simp only [maxResponseLength] at hlong
    exact absurd hlong (by decide)
  have hemp : (jsTrim stdout == "") = false := beq_eq_false_iff_ne.mpr hne
  have heq : runClaudeResult 0 stdout stderr =
      jsSlice0 (jsTrim stdout) (maxResponseLength - 100) ++ truncationNotice := by
    unfold runClaudeResult
    rw [if_neg (by simp), if_neg (by simp [hemp]), if_pos hlong]
  refine ⟨heq, ?_⟩
  rw [heq, String.length_append, jsSlice0_length]
  have h1 : truncationNotice.length = 25 := rfl
  have h2 : min (maxResponseLength - 100) (jsTrim stdout).length =
      maxResponseLength - 100 :=
    Nat.min_eq_left (by simp only [maxResponseLength] at hlong ⊢; omega)
  simp only [maxResponseLength] at h2 ⊢
  omega

/-- **C10**: every string resolved by `processWithClaude` (via `runClaude`
or the `processNext` catch clause) or by `processWithCodex` has length at
most `config.maxResponseLength`; a successful CLI answer longer than that
bound is cut to `maxResponseLength - 100` characters and suffixed with the
truncation notice (total length `maxResponseLength - 75`). -/
theorem responses_bounded_by_maxResponseLength (exitCode : Nat)
    (stdout stderr errMsg : String) (hcode : exitCode < 256) :
    (runClaudeResult exitCode stdout stderr).length ≤ maxResponseLength ∧
    (codexResult exitCode stdout stderr).length ≤ maxResponseLength ∧
    (claudeResolved (Except.error errMsg)).length ≤ maxResponseLength ∧
    (maxResponseLength < (jsTrim stdout).length →
      runClaudeResult 0 stdout stderr =
        jsSlice0 (jsTrim stdout) (maxResponseLength - 100) ++ truncationNotice ∧
      (runClaudeResult 0 stdout stderr).length = maxResponseLength - 75) := by
  refine ⟨runClaudeResult_length_le exitCode stdout stderr hcode,
    codexResult_length_le exitCode stdout stderr, ?_,
    fun hlong => runClaudeResult_truncates stdout stderr hlong⟩
  show ("Error: " ++ summarizeError errMsg).length ≤ maxResponseLength
  rw [String.length_append]
  have h1 : ("Error: " : String).length = 7 := rfl
  have h2 := summarizeError_length errMsg
  simp only [maxResponseLength]
  omega

theorem responses_bounded_by_maxResponseLength_witness :
    (runClaudeResult 1 "boom" "").length ≤ maxResponseLength ∧
    (codexResult 1 "boom" "").length ≤ maxResponseLength ∧
    (claudeResolved (Except.error "boom")).length ≤ maxResponseLength ∧
    (runClaudeResult 0 exLongOutput "" =
      jsSlice0 (jsTrim exLongOutput) (maxResponseLength - 100) ++
        truncationNotice ∧
    (runClaudeResult 0 exLongOutput "").length = maxResponseLength - 75) := by
  have hlen : maxResponseLength < (jsTrim exLongOutput).length := by
    have hws : isJsWhitespace 'a' = false := by decide
    have h1 : (List.replicate 4200 'a').dropWhile isJsWhitespace =
        List.replicate 4200 'a' := by
      rw [List.dropWhile_replicate, hws]
      simp only [Bool.false_eq_true, if_false]
    have htr : jsTrim exLongOutput = exLongOutput := by
      unfold jsTrim exLongOutput
      show String.mk ((((List.replicate 4200 'a').dropWhile
          isJsWhitespace).reverse.dropWhile isJsWhitespace).reverse) =
        String.mk (List.replicate 4200 'a')
      rw [h1, List.reverse_replicate, h1, List.reverse_replicate]
    rw [htr]
    show maxResponseLength < (List.replicate 4200 'a').length
    rw [List.length_replicate]
    simp [maxResponseLength]
  obtain ⟨h1, h2, h3, _⟩ :=
    responses_bounded_by_maxResponseLength 1 "boom" "" "boom" (by decide)
  obtain ⟨_, _, _, h4⟩ :=
    responses_bounded_by_maxResponseLength 1 exLongOutput "" "boom" (by decide)
  exact ⟨h1, h2, h3, h4 hlen⟩

/-- **C2**: for every Core state and every combination of RPC and fallback
failures, `sendToCore` resolves with a `CoreResponse` (it never rejects);
when the Core is down it resolves with the `fallbackClaude` text, and
`fallbackClaude` converts each internal failure — a thrown error, no CLI
installed, all CLIs failed — into an apology/status string. -/
theorem sendToCore_never_rejects (env : BridgeEnv) :
    (∃ r : CoreResponse, sendToCore env = Except.ok r) ∧
    (env.state = CoreState.down →
      sendToCore env = Except.ok { text := fallbackClaude env.cliOutcome }) ∧
    (∀ msg : String, fallbackClaude (Except.error msg) =
      "[Fallback mode] Could not reach fallback CLI. Core is down and fallback is unavailable. Please check server logs.") ∧
    (∀ o : CliFallbackOutcome, o.result = none → o.attempted = [] →
      fallbackClaude (Except.ok o) =
        "[Fallback mode] Neither Claude nor Codex CLI is available. Core is down and fallback is unavailable.") ∧
    (∀ o : CliFallbackOutcome, o.result = none → o.attempted ≠ [] →
      fallbackClaude (Except.ok o) =
        "[Fallback mode] Claude and Codex fallback both failed. Core is down and fallback is unavailable. Please check server logs.") := by
  obtain ⟨state, ready, post1, post2, cli⟩ := env
  refine ⟨?_, ?_, fun msg => rfl, ?_, ?_⟩
  · cases state <;> cases ready <;> cases post1 <;> cases post2 <;> exact ⟨_, rfl⟩
  · intro h
    simp only at h
    subst h
    rfl
  · intro o h1 h2
    obtain ⟨res, att, fails⟩ := o
    simp only at h1 h2
    subst h1
    subst h2
    rfl
  · intro o h1 h2
    obtain ⟨res, att, fails⟩ := o
    simp only at h1 h2
    subst h1
    cases att with
    | nil => exact absurd rfl h2
    | cons a l => rfl

theorem sendToCore_never_rejects_witness :
    (∃ r : CoreResponse, sendToCore exBridgeEnv = Except.ok r) ∧
    sendToCore exBridgeEnv =
      Except.ok { text := fallbackClaude (Except.error "spawn failed") } ∧
    fallbackClaude (Except.error "spawn failed") =
      "[Fallback mode] Could not reach fallback CLI. Core is down and fallback is unavailable. Please check server logs." ∧
    fallbackClaude (Except.ok exOutcomeNoCli) =
      "[Fallback mode] Neither Claude nor Codex CLI is available. Core is down and fallback is unavailable." ∧
    fallbackClaude (Except.ok exOutcomeAllFailed) =
      "[Fallback mode] Claude and Codex fallback both failed. Core is down and fallback is unavailable. Please check server logs." := by
  obtain ⟨h1, h2, h3, h4, h5⟩ := sendToCore_never_rejects exBridgeEnv
  exact ⟨h1, h2 rfl, h3 "spawn failed", h4 exOutcomeNoCli rfl rfl,
    h5 exOutcomeAllFailed rfl (by decide)⟩

theorem runCliLoop_result (oracle : AgentCli → Except String RawResult) :
    ∀ (cands att : List AgentCli) (fails : List String)
      (pc : Option CliExecutionResult),
      (runCliLoop oracle cands att fails pc).result =
        orElseOpt (specFirstSuccess oracle cands)
          (orElseOpt pc (specFirstPartial oracle cands)) := by
  intro cands
  induction cands with
  | nil =>
      intro att fails pc
      cases pc <;> rfl
  | cons cli rest ih =>
      intro att fails pc
      cases horacle : oracle cli with
      | error msg =>
          simp only [runCliLoop, specFirstSuccess, specFirstPartial, horacle]
          exact ih _ _ _
      | ok r =>
          by_cases hsucc : r.exitCode = 0 ∧ jsTrim r.output ≠ ""
          · simp only [runCliLoop, specFirstSuccess, specFirstPartial, horacle,
              if_pos hsucc]
            rfl
          · simp only [runCliLoop, specFirstSuccess, specFirstPartial, horacle,
              if_neg hsucc]
            rw [ih]
            by_cases hpart : r.exitCode ≠ 0 ∧ jsTrim r.output ≠ ""
            · have hc1 := hpart.1
              have hc2 := hpart.2
              cases pc with
              | some x => simp [hc1, hc2, orElseOpt]
              | none =>
                  cases hfs : specFirstSuccess oracle rest <;>
                    simp [hc1, hc2, orElseOpt, hfs]
            · have hcond : ¬(r.exitCode ≠ 0 ∧ jsTrim r.output ≠ "" ∧ pc = none) := by
                intro hc
                exact hpart ⟨hc.1, hc.2.1⟩
              simp only [if_neg hcond, if_neg hpart]

theorem specFirstSuccess_shape (oracle : AgentCli → Except String RawResult) :
    ∀ (cands : List AgentCli) (r : CliExecutionResult),
      specFirstSuccess oracle cands = some r →
      r.exitCode = 0 ∧ r.output ≠ "" ∧ r.partialFlag = false := by
  intro cands
  induction cands with
  | nil => intro r h; cases h
  | cons cli rest ih =>
      intro r h
      rw [specFirstSuccess] at h
      cases horacle : oracle cli with
      | error msg =>
          rw [horacle] at h
          exact ih r h
      | ok raw =>
          rw [horacle] at h
          dsimp only at h
          by_cases hsucc : raw.exitCode = 0 ∧ jsTrim raw.output ≠ ""
          · rw [if_pos hsucc] at h
            cases h
            exact ⟨hsucc.1, hsucc.2, rfl⟩
          · rw [if_neg hsucc] at h
            exact ih r h

theorem specFirstPartial_shape (oracle : AgentCli → Except String RawResult) :
    ∀ (cands : List AgentCli) (r : CliExecutionResult),
      specFirstPartial oracle cands = some r →
      r.exitCode ≠ 0 ∧ r.output ≠ "" ∧ r.partialFlag = true := by
  intro cands
  induction cands with
  | nil => intro r h; cases h
  | cons cli rest ih =>
      intro r h
      rw [specFirstPartial] at h
      cases horacle : oracle cli with
      | error msg =>
          rw [horacle] at h
          exact ih r h
      | ok raw =>
          rw [horacle] at h
          dsimp only at h
          by_cases hsucc : raw.exitCode = 0 ∧ jsTrim raw.output ≠ ""
          · rw [if_pos hsucc] at h
            exact ih r h
          · rw [if_neg hsucc] at h
            by_cases hpart : raw.exitCode ≠ 0 ∧ jsTrim raw.output ≠ ""
            · rw [if_pos hpart] at h
              cases h
              exact ⟨hpart.1, hpart.2, rfl⟩
            · rw [if_neg hpart] at h
              exact ih r h

/-- **C7 counterexample**: with one available CLI that exits 1 printing an
authentication error, `runWithCliFallback` returns that output as its
partial result even though `looksLikeCliError` matches it — the function
itself performs no raw-CLI-error confirmation before returning the partial
candidate. -/
theorem runWithCliFallback_no_error_vetting :
    (runWithCliFallback [AgentCli.claude] exC7Oracle).result =
      some
        { cli := AgentCli.claude
          output := "authentication_error: invalid api key"
          stderr := "", exitCode := 1, partialFlag := true } ∧
    looksLikeCliError "authentication_error: invalid api key" = true := by
  constructor
  · decide
  · decide

/-- **C7 (amended)**: `runWithCliFallback` tries each available CLI in
order and returns the first result with exit code 0 and non-empty output;
a CLI that produced output but exited non-zero is remembered as the first
(low-confidence, `partialFlag`) candidate rather than discarded, and that
partial candidate is returned — without any raw-CLI-error confirmation —
exactly when no better result exists; the confirmation that a partial
result does not look like a raw CLI error message is performed by the
consuming `fallbackClaude` revision (`fallbackClaudeChecked`), which
replaces such output with a CLI-failed notice instead of forwarding it. -/
theorem runWithCliFallback_first_success_else_partial
    (candidates : List AgentCli)
    (oracle : AgentCli → Except String RawResult) :
    (runWithCliFallback candidates oracle).result =
      orElseOpt (specFirstSuccess oracle candidates)
        (specFirstPartial oracle candidates) ∧
    (∀ r, specFirstSuccess oracle candidates = some r →
      r.exitCode = 0 ∧ r.output ≠ "" ∧ r.partialFlag = false) ∧
    (∀ r, specFirstPartial oracle candidates = some r →
      r.exitCode ≠ 0 ∧ r.output ≠ "" ∧ r.partialFlag = true) ∧
    (∀ (o : CliFallbackOutcome) (r : CliExecutionResult),
      o.result = some r → r.partialFlag = true →
      looksLikeCliError r.output = true →
      fallbackClaudeChecked (Except.ok o) =
        "[Fallback mode] " ++ getAgentCliLabel r.cli ++ " CLI failed (exit " ++
          toString r.exitCode ++ "). Please check server logs.") := by
  refine ⟨?_, specFirstSuccess_shape oracle candidates,
    specFirstPartial_shape oracle candidates, ?_⟩
  · rw [runWithCliFallback, runCliLoop_result]
    rfl
  · intro o r h1 h2 h3
    obtain ⟨res, att, fails⟩ := o
    simp only at h1
    subst h1
    simp [fallbackClaudeChecked, h2, h3]

theorem runWithCliFallback_first_success_else_partial_witness :
    (runWithCliFallback [AgentCli.claude] exC7Oracle).result =
      orElseOpt (specFirstSuccess exC7Oracle [AgentCli.claude])
        (specFirstPartial exC7Oracle [AgentCli.claude]) ∧
    ((specFirstPartial exC7Oracle [AgentCli.claude]).all
        (fun r => r.partialFlag) = true) ∧
    fallbackClaudeChecked
        (Except.ok (runWithCliFallback [AgentCli.claude] exC7Oracle)) =
      "[Fallback mode] Claude CLI failed (exit 1). Please check server logs." := by
  obtain ⟨h1, _, _, h4⟩ :=
    runWithCliFallback_first_success_else_partial [AgentCli.claude] exC7Oracle
  refine ⟨h1, by decide, ?_⟩
  have heq := h4 (runWithCliFallback [AgentCli.claude] exC7Oracle)
    { cli := AgentCli.claude
      output := "authentication_error: invalid api key"
      stderr := "", exitCode := 1, partialFlag := true }
    (by decide) rfl (by decide)
  rw [heq]
  decide

theorem canonicalPhases_running {o : List Bool} {r : Bool} {w i : Nat}
    (h : (canonicalPhases o r w)[i]? = some JobPhase.running) :
    r = true ∧ i = o.length := by
  unfold canonicalPhases at h
  rw [List.append_assoc] at h
  by_cases h1 : i < o.length
  · rw [List.getElem?_append, if_pos (by simpa using h1),
      List.getElem?_map] at h
    cases ho : o[i]? with
    | none => rw [ho] at h; simp at h
    | some b => rw [ho] at h; simp at h
  · rw [List.getElem?_append_right (by simpa using not_lt.mp h1)] at h
    rw [List.length_map] at h
    cases r
    · simp only [Bool.false_eq_true, if_false, List.nil_append] at h
      rw [List.getElem?_replicate] at h
      split at h <;> simp at h
    · refine ⟨rfl, ?_⟩
      by_cases h2 : i - o.length = 0
      · omega
      · rw [if_pos rfl, List.getElem?_append_right
          (by simp; omega : ([JobPhase.running]).length ≤ i - o.length)] at h
        rw [List.getElem?_replicate] at h
        split at h <;> simp at h

theorem canonicalPhases_waiting {o : List Bool} {r : Bool} {w i : Nat}
    (h : (canonicalPhases o r w)[i]? = some JobPhase.waiting) :
    o.length + (if r then 1 else 0) ≤ i ∧
      i < o.length + (if r then 1 else 0) + w := by
  unfold canonicalPhases at h
  rw [List.append_assoc] at h
  by_cases h1 : i < o.length
  · rw [List.getElem?_append, if_pos (by simpa using h1),
      List.getElem?_map] at h
    cases ho : o[i]? with
    | none => rw [ho] at h; simp at h
    | some b => rw [ho] at h; simp at h
  · rw [List.getElem?_append_right (by simpa using not_lt.mp h1)] at h
    rw [List.length_map] at h
    cases r
    · simp only [Bool.false_eq_true, if_false, List.nil_append] at h
      rw [List.getElem?_replicate] at h
      split at h
      · simp only [Bool.false_eq_true, if_false]
        omega
      · simp at h
    · simp only [eq_self_iff_true, if_true] at h ⊢
      by_cases h2 : i - o.length = 0
      · rw [h2] at h
        simp only [List.getElem?_append, List.length_singleton,
          Nat.zero_lt_one, if_pos] at h
        simp at h
      · rw [List.getElem?_append_right
          (by simp; omega : ([JobPhase.running]).length ≤ i - o.length)] at h
        rw [List.getElem?_replicate] at h
        split at h
        · simp only [List.length_singleton] at *
          omega
        · simp at h

theorem canonicalPhases_done {o : List Bool} {r : Bool} {w i : Nat}
    {ok : Bool}
    (h : (canonicalPhases o r w)[i]? = some (JobPhase.done ok)) :
    i < o.length := by
  unfold canonicalPhases at h
  rw [List.append_assoc] at h
  by_cases h1 : i < o.length
  · exact h1
  · rw [List.getElem?_append_right (by simpa using not_lt.mp h1)] at h
    rw [List.length_map] at h
    cases r
    · simp only [Bool.false_eq_true, if_false, List.nil_append] at h
      rw [List.getElem?_replicate] at h
      split at h <;> simp at h
    · rw [if_pos rfl] at h
      by_cases h2 : i - o.length = 0
      · rw [h2] at h
        simp only [List.getElem?_append, List.length_singleton,
          Nat.zero_lt_one, if_pos] at h
        simp at h
      · rw [List.getElem?_append_right
          (by simp; omega : ([JobPhase.running]).length ≤ i - o.length)] at h
        rw [List.getElem?_replicate] at h
        split at h <;> simp at h

theorem set_append_left_length {α : Type} (A B : List α) (v : α) :
    (A ++ B).set A.length v = A ++ B.set 0 v := by
  induction A with
  | nil => simp
  | cons a as ih => simp [ih]

theorem canonicalPhases_set_start (o : List Bool) (w : Nat) (hw : 1 ≤ w) :
    (canonicalPhases o false w).set o.length JobPhase.running =
      canonicalPhases o true (w - 1) := by
  obtain ⟨w', rfl⟩ : ∃ w', w = w' + 1 := ⟨w - 1, by omega⟩
  simp only [canonicalPhases, Bool.false_eq_true, if_false, if_pos,
    List.append_nil, Nat.add_sub_cancel]
  rw [List.replicate_succ]
  have hlen : o.length = (o.map JobPhase.done).length := (List.length_map _ _).symm
  rw [hlen, set_append_left_length]
  simp

theorem canonicalPhases_set_finish (o : List Bool) (w : Nat) (ok : Bool) :
    (canonicalPhases o true w).set o.length (JobPhase.done ok) =
      canonicalPhases (o ++ [ok]) false w := by
  simp only [canonicalPhases, if_pos, Bool.false_eq_true, if_false,
    List.append_nil, List.map_append, List.map_cons, List.map_nil]
  rw [List.append_assoc]
  have hlen : o.length = (o.map JobPhase.done).length := (List.length_map _ _).symm
  rw [hlen, set_append_left_length]
  simp

theorem doneLog_append (os : List Bool) (ok : Bool) :
    ∀ k, doneLog (os ++ [ok]) k =
      doneLog os k ++
        [FbEvent.start (k + os.length), FbEvent.finish (k + os.length) ok] := by
  induction os with
  | nil =>
      intro k
      simp [doneLog]
  | cons b rest ih =>
      intro k
      have hcons : (b :: rest) ++ [ok] = b :: (rest ++ [ok]) := rfl
      rw [hcons]
      simp only [doneLog, ih (k + 1), List.length_cons, List.cons_append]
      have h1 : k + 1 + rest.length = k + (rest.length + 1) := by omega
      rw [h1]

theorem fb_reachable_canonical (s : FbState) (h : FbReachable s) :
    FbCanonical s := by
  unfold FbReachable at h
  induction h with
  | refl => exact ⟨[], false, 0, rfl, rfl⟩
  | @tail b c hab hbc ih =>
      obtain ⟨o, r, w, hp, hl⟩ := ih
      cases hbc with
      | submit =>
          refine ⟨o, r, w + 1, ?_, hl⟩
          show b.phases ++ [JobPhase.waiting] = _
          rw [hp]
          simp [canonicalPhases, List.append_assoc, List.replicate_succ']
      | start i hwait hprev =>
          rw [hp] at hwait hprev
          have hw := canonicalPhases_waiting hwait
          have hle : i ≤ o.length := by
            rcases hprev with h0 | ⟨ok', hdone⟩
            · omega
            · have := canonicalPhases_done hdone
              omega
          cases r with
          | true =>
              exfalso
              simp only [if_pos] at hw
              omega
          | false =>
              simp only [Bool.false_eq_true, if_false] at hw
              have hi : i = o.length := by omega
              have hwge : 1 ≤ w := by omega
              subst hi
              refine ⟨o, true, w - 1, ?_, ?_⟩
              · show b.phases.set o.length JobPhase.running = _
                rw [hp]
                exact canonicalPhases_set_start o w hwge
              · show b.log ++ [FbEvent.start o.length] = _
                rw [hl]
                simp [canonicalLog]
      | finish i ok hrun =>
          rw [hp] at hrun
          obtain ⟨hre, hie⟩ := canonicalPhases_running hrun
          subst hre
          subst hie
          refine ⟨o ++ [ok], false, w, ?_, ?_⟩
          · show b.phases.set o.length (JobPhase.done ok) = _
            rw [hp]
            exact canonicalPhases_set_finish o w ok
          · show b.log ++ [FbEvent.finish o.length ok] = _
            rw [hl]
            simp [canonicalLog, doneLog_append]

/-- **C8**: fallback invocations are strictly serialized.  In every state
the event loop can reach, the observation log is exactly the canonical
serialized sequence `start 0, finish 0, start 1, finish 1, …` (one at a
time, in arrival order, never overlapping — regardless of each job's
outcome), at most one job is ever running, and a job that settled with a
failure does not block its successor: the successor's start step is
enabled. -/
theorem fallback_invocations_serialized (s : FbState) (h : FbReachable s) :
    (∃ outcomes running waiting,
      s.phases = canonicalPhases outcomes running waiting ∧
      s.log = canonicalLog outcomes running) ∧
    (∀ i j : Nat, s.phases[i]? = some JobPhase.running →
      s.phases[j]? = some JobPhase.running → i = j) ∧
    (∀ i : Nat, s.phases[i]? = some (JobPhase.done false) →
      s.phases[i + 1]? = some JobPhase.waiting →
      FbStep s
        { phases := s.phases.set (i + 1) JobPhase.running
          log := s.log ++ [FbEvent.start (i + 1)] }) := by
  have hc := fb_reachable_canonical s h
  refine ⟨hc, ?_, ?_⟩
  · intro i j hi hj
    obtain ⟨o, r, w, hp, _⟩ := hc
    rw [hp] at hi hj
    rw [(canonicalPhases_running hi).2, (canonicalPhases_running hj).2]
  · intro i h1 h2
    exact FbStep.start s (i + 1) h2 (Or.inr ⟨false, by simpa using h1⟩)

theorem fallback_invocations_serialized_witness :
    (∃ outcomes running waiting,
      exFbFinal.phases = canonicalPhases outcomes running waiting ∧
      exFbFinal.log = canonicalLog outcomes running) ∧
    (∀ i j : Nat, exFbFinal.phases[i]? = some JobPhase.running →
      exFbFinal.phases[j]? = some JobPhase.running → i = j) := by
  have s1 : FbStep fbInit { phases := [JobPhase.waiting], log := [] } :=
    FbStep.submit fbInit
  have s2 : FbStep { phases := [JobPhase.waiting], log := [] }
      { phases := [JobPhase.waiting, JobPhase.waiting], log := [] } :=
    FbStep.submit _
  have s3 : FbStep { phases := [JobPhase.waiting, JobPhase.waiting], log := [] }
      { phases := [JobPhase.running, JobPhase.waiting]
        log := [FbEvent.start 0] } :=
    FbStep.start _ 0 rfl (Or.inl rfl)
  have s4 : FbStep
      { phases := [JobPhase.running, JobPhase.waiting]
        log := [FbEvent.start 0] }
      { phases := [JobPhase.done false, JobPhase.waiting]
        log := [FbEvent.start 0, FbEvent.finish 0 false] } :=
    FbStep.finish _ 0 false rfl
  have s5 : FbStep
      { phases := [JobPhase.done false, JobPhase.waiting]
        log := [FbEvent.start 0, FbEvent.finish 0 false] } exFbFinal :=
    FbStep.start _ 1 rfl (Or.inr ⟨false, rfl⟩)
  have hreach : FbReachable exFbFinal :=
    ((((Relation.ReflTransGen.refl.tail s1).tail s2).tail s3).tail s4).tail s5
  obtain ⟨h1, h2, _⟩ := fallback_invocations_serialized exFbFinal hreach
  exact ⟨h1, h2⟩

end Tinyclaw
